import Mathlib

/-!
Shallow embedding of the Vault-Relay backend (a direct-message / group-chat
server) and proofs about its message ledger, friendship state machine,
block registry, pre-key store and cursor pagination codec.

Each service function is translated from the JavaScript source into a pure
Lean function over an explicit database state (`DB`).  Prisma transactions
become atomic state transformations; `throw new Error(...)` becomes
`Except.error` with one constructor per throw site; generated row ids and
`new Date()` timestamps are modelled by the `nextId` / `clock` counters of
the state.
-/

namespace VaultRelay

instance exceptDecEq {ε α : Type} [DecidableEq ε] [DecidableEq α] :
    DecidableEq (Except ε α) := fun a b =>
  match a, b with
  | .ok x, .ok y =>
    if h : x = y then .isTrue (by rw [h]) else
      .isFalse (by intro hc; cases hc; exact h rfl)
  | .error e, .error f =>
    if h : e = f then .isTrue (by rw [h]) else
      .isFalse (by intro hc; cases hc; exact h rfl)
  | .ok _, .error _ => .isFalse (by intro hc; cases hc)
  | .error _, .ok _ => .isFalse (by intro hc; cases hc)

abbrev UserId := String

inductive FriendshipStatus where
  | PENDING | ACCEPTED | DECLINED | BLOCKED | CANCELLED
deriving DecidableEq, Repr

inductive ConvType where
  | DIRECT | GROUP
deriving DecidableEq, Repr

inductive ContentType where
  | TEXT | SIGNAL_ENCRYPTED | SIGNAL_KEY_DISTRIBUTION
deriving DecidableEq, Repr

structure Friendship where
  id : Nat
  requesterId : UserId
  addresseeId : UserId
  status : FriendshipStatus
  acceptedAt : Option Nat := none
  updatedAt : Nat := 0
deriving DecidableEq, Repr

structure Conversation where
  id : Nat
  type : ConvType
  participantAId : Option UserId := none
  participantBId : Option UserId := none
  lastMessageId : Option Nat := none
  updatedAt : Nat := 0
deriving DecidableEq, Repr

structure Participant where
  conversationId : Nat
  userId : UserId
  unreadCount : Int := 0
deriving DecidableEq, Repr

structure Message where
  id : Nat
  conversationId : Nat
  senderId : UserId
  content : String
  contentType : ContentType
  attachmentUrl : Option String := none
  replyToId : Option Nat := none
  editedAt : Option Nat := none
  createdAt : Nat
deriving DecidableEq, Repr

structure MessageReceipt where
  messageId : Nat
  userId : UserId
deriving DecidableEq, Repr

structure IdentityKeyRow where
  userId : UserId
  publicKey : String
  registrationId : Nat
deriving DecidableEq, Repr

structure SignedPreKeyRow where
  userId : UserId
  keyId : Nat
  publicKey : String
  signature : String
deriving DecidableEq, Repr

structure OneTimePreKeyRow where
  id : Nat
  userId : UserId
  keyId : Nat
  publicKey : String
deriving DecidableEq, Repr

/-- The backing store.  `nextId` models the id generator for created rows
(all generated ids are below `nextId`), `clock` models `new Date()`. -/
structure DB where
  users : List UserId := []
  friendships : List Friendship := []
  conversations : List Conversation := []
  participants : List Participant := []
  messages : List Message := []
  receipts : List MessageReceipt := []
  identityKeys : List IdentityKeyRow := []
  signedPreKeys : List SignedPreKeyRow := []
  oneTimePreKeys : List OneTimePreKeyRow := []
  nextId : Nat := 1
  clock : Nat := 1
deriving DecidableEq, Repr

/-- One constructor per `throw` / error response site in the embedded code. -/
inductive Err where
  | missingIds            -- 'userAId and userBId required' etc.
  | noContent             -- 'Message must have content or attachment'
  | conversationNotFound  -- 'Conversation not found'
  | notParticipant        -- 'Forbidden: you are not a participant ...'
  | blockedByRecipient    -- 'Forbidden: you are blocked by the recipient'
  | invalidLastRead       -- 'Invalid lastReadMessageId: ...'
  | participantMissing    -- Prisma P2025 on participant.update
  | friendNotFound        -- 'Friend request not found'
  | notAddressee          -- 'Not authorized to accept this request'
  | notPending            -- 'Friend request is not pending'
  | keysNotSetUp          -- 'User has not set up E2EE keys yet.'
  | messageNotFound       -- 'Message not found'
  | notSender             -- 'Forbidden: You can only edit/delete your own messages'
  | emptyContent          -- 'Content is required'
  | unauthorized          -- 401 responses in the friend controller
  | badRequest            -- 400 responses in the friend controller
  | targetNotFound        -- 404 'Target user not found'
  | noBlockedRelationship -- 404 'No blocked relationship found ...'
  | cannotUnblock         -- 403 'Cannot unblock: this user has blocked you.'
deriving DecidableEq, Repr

/-! ## Block registry (src/unnamed/part_003, `blockService.isBlocked`) -/

/-- Embeds `isBlocked(userAId, userBId)`: input error when either id is
falsy, otherwise `findFirst` over the two orientations of a BLOCKED row,
coerced to a boolean with `!!`. -/
def isBlocked (db : DB) (userAId userBId : UserId) : Except Err Bool :=
  if userAId == "" || userBId == "" then .error .missingIds
  else
    .ok (db.friendships.find? (fun f =>
      (f.requesterId == userAId && f.addresseeId == userBId && f.status == .BLOCKED) ||
      (f.requesterId == userBId && f.addresseeId == userAId && f.status == .BLOCKED))).isSome

/-- C9 (claim): `isBlocked` is symmetric and true exactly when a BLOCKED
`Friendship` row joins the two users in either orientation. -/
theorem isBlocked_symm_iff_blocked_row (db : DB) (a b : UserId) :
    isBlocked db a b = isBlocked db b a ∧
    (a ≠ "" → b ≠ "" →
      (isBlocked db a b = .ok true ↔
        ∃ f ∈ db.friendships, f.status = .BLOCKED ∧
          ((f.requesterId = a ∧ f.addresseeId = b) ∨
           (f.requesterId = b ∧ f.addresseeId = a)))) := by
  constructor
  · unfold isBlocked
    rw [Bool.or_comm (a == "")]
    have hp : (fun f : Friendship =>
        (f.requesterId == a && f.addresseeId == b && f.status == .BLOCKED) ||
        (f.requesterId == b && f.addresseeId == a && f.status == .BLOCKED)) =
        (fun f : Friendship =>
        (f.requesterId == b && f.addresseeId == a && f.status == .BLOCKED) ||
        (f.requesterId == a && f.addresseeId == b && f.status == .BLOCKED)) := by
      funext f; exact Bool.or_comm _ _
    rw [hp]
  · intro ha hb
    unfold isBlocked
    have ha' : (a == "") = false := by simp [ha]
    have hb' : (b == "") = false := by simp [hb]
    rw [ha', hb', Bool.or_self, if_neg (by decide)]
    constructor
    · intro h
      have hs := Except.ok.inj h
      rw [List.find?_isSome] at hs
      obtain ⟨f, hf, hpf⟩ := hs
      refine ⟨f, hf, ?_⟩
      simp only [Bool.or_eq_true, Bool.and_eq_true, beq_iff_eq] at hpf
      rcases hpf with ⟨⟨h1, h2⟩, h3⟩ | ⟨⟨h1, h2⟩, h3⟩
      · exact ⟨h3, Or.inl ⟨h1, h2⟩⟩
      · exact ⟨h3, Or.inr ⟨h1, h2⟩⟩
    · rintro ⟨f, hf, hst, hor⟩
      have : (db.friendships.find? (fun f =>
          (f.requesterId == a && f.addresseeId == b && f.status == .BLOCKED) ||
          (f.requesterId == b && f.addresseeId == a && f.status == .BLOCKED))).isSome = true := by
        rw [List.find?_isSome]
        refine ⟨f, hf, ?_⟩
        simp only [Bool.or_eq_true, Bool.and_eq_true, beq_iff_eq]
        rcases hor with ⟨h1, h2⟩ | ⟨h1, h2⟩
        · exact Or.inl ⟨⟨h1, h2⟩, hst⟩
        · exact Or.inr ⟨⟨h1, h2⟩, hst⟩
      rw [this]

/-- Concrete store for the C9 witness: a BLOCKED row stored as (u2 blocks u1). -/
def blockedDb : DB :=
  { friendships := [{ id := 1, requesterId := "u2", addresseeId := "u1",
                      status := .BLOCKED }] }

/-- Witness for C9: the store above is reported blocked when queried as (u1, u2). -/
theorem isBlocked_symm_iff_blocked_row_witness :
    isBlocked blockedDb "u1" "u2" = .ok true :=
  ((isBlocked_symm_iff_blocked_row blockedDb "u1" "u2").2
    (by decide) (by decide)).mpr
    ⟨{ id := 1, requesterId := "u2", addresseeId := "u1", status := .BLOCKED },
      by simp [blockedDb], by simp⟩

/-! ## Pre-key store (src/unnamed/part_004, `getPreKeyBundle`) -/

structure PreKeyPair where
  keyId : Nat
  publicKey : String
deriving DecidableEq, Repr

structure SignedPreKeyInfo where
  keyId : Nat
  publicKey : String
  signature : String
deriving DecidableEq, Repr

structure PreKeyBundle where
  userId : UserId
  registrationId : Nat
  identityKey : String
  signedPreKey : SignedPreKeyInfo
  oneTimePreKey : Option PreKeyPair
deriving DecidableEq, Repr

/-- Embeds `findFirst({where: {userId}, orderBy: {keyId: 'asc'}})`: the first
row (in table order) carrying a minimal `keyId`. -/
def findFirstByKeyIdAsc (l : List OneTimePreKeyRow) : Option OneTimePreKeyRow :=
  l.foldl (fun acc r =>
    match acc with
    | none => some r
    | some m => if r.keyId < m.keyId then some r else some m) none

/-- Embeds `getPreKeyBundle(targetUserId)`: requires identity and signed
pre-key rows, then returns and deletes the oldest (smallest `keyId`)
one-time pre-key of the target, if any remain. -/
def getPreKeyBundle (db : DB) (targetUserId : UserId) : Except Err (DB × PreKeyBundle) :=
  match db.identityKeys.find? (fun r => r.userId == targetUserId),
        db.signedPreKeys.find? (fun r => r.userId == targetUserId) with
  | some identity, some signedPreKey =>
    -- `findFirst` ordered by keyId ascending; on a hit the row is deleted
    -- (`delete({where: {id}})`) and surfaced; otherwise `oneTimePreKey` is null.
    match findFirstByKeyIdAsc
        (db.oneTimePreKeys.filter (fun r => r.userId == targetUserId)) with
    | some k =>
      .ok ({ db with oneTimePreKeys :=
               db.oneTimePreKeys.filter (fun r => r.id != k.id) },
           { userId := targetUserId,
             registrationId := identity.registrationId,
             identityKey := identity.publicKey,
             signedPreKey := { keyId := signedPreKey.keyId,
                               publicKey := signedPreKey.publicKey,
                               signature := signedPreKey.signature },
             oneTimePreKey := some { keyId := k.keyId, publicKey := k.publicKey } })
    | none =>
      .ok (db,
           { userId := targetUserId,
             registrationId := identity.registrationId,
             identityKey := identity.publicKey,
             signedPreKey := { keyId := signedPreKey.keyId,
                               publicKey := signedPreKey.publicKey,
                               signature := signedPreKey.signature },
             oneTimePreKey := none })
  | _, _ => .error .keysNotSetUp

theorem findFirstByKeyIdAsc_aux (l : List OneTimePreKeyRow) (m0 m : OneTimePreKeyRow)
    (h : l.foldl (fun acc r =>
        match acc with
        | none => some r
        | some m => if r.keyId < m.keyId then some r else some m) (some m0) = some m) :
    (m = m0 ∨ m ∈ l) ∧ m.keyId ≤ m0.keyId ∧ ∀ r ∈ l, m.keyId ≤ r.keyId := by
  induction l generalizing m0 with
  | nil =>
    simp only [List.foldl_nil, Option.some.injEq] at h
    exact ⟨Or.inl h.symm, by rw [h], by simp⟩
  | cons a t ih =>
    simp only [List.foldl_cons] at h
    by_cases hlt : a.keyId < m0.keyId
    · rw [if_pos hlt] at h
      obtain ⟨hmem, hle, hall⟩ := ih a h
      refine ⟨?_, by omega, ?_⟩
      · rcases hmem with rfl | hm
        · exact Or.inr (List.mem_cons_self _ _)
        · exact Or.inr (List.mem_cons_of_mem _ hm)
      · intro r hr
        rcases List.mem_cons.mp hr with rfl | hr'
        · exact hle
        · exact hall r hr'
    · rw [if_neg hlt] at h
      obtain ⟨hmem, hle, hall⟩ := ih m0 h
      refine ⟨?_, hle, ?_⟩
      · rcases hmem with rfl | hm
        · exact Or.inl rfl
        · exact Or.inr (List.mem_cons_of_mem _ hm)
      · intro r hr
        rcases List.mem_cons.mp hr with rfl | hr'
        · omega
        · exact hall r hr'

theorem findFirstByKeyIdAsc_spec (l : List OneTimePreKeyRow) (m : OneTimePreKeyRow)
    (h : findFirstByKeyIdAsc l = some m) :
    m ∈ l ∧ ∀ r ∈ l, m.keyId ≤ r.keyId := by
  cases l with
  | nil => simp [findFirstByKeyIdAsc] at h
  | cons a t =>
    unfold findFirstByKeyIdAsc at h
    simp only [List.foldl_cons] at h
    obtain ⟨hmem, hle, hall⟩ := findFirstByKeyIdAsc_aux t a m h
    refine ⟨?_, ?_⟩
    · rcases hmem with rfl | hm
      · exact List.mem_cons_self _ _
      · exact List.mem_cons_of_mem _ hm
    · intro r hr
      rcases List.mem_cons.mp hr with rfl | hr'
      · exact hle
      · exact hall r hr'

/-- C6 (claim): pre-key bundle fetch is one-shot-consuming.  Any successful
fetch that surfaces a one-time pre-key surfaces one of minimal `keyId` among
the target's rows and deletes exactly that row; and with exactly one
remaining one-time pre-key the first call returns it (deleting it) while the
second call returns `none` for that field, both calls returning the identity
key and signed pre-key unchanged. -/
theorem getPreKeyBundle_one_shot (u : UserId) (db : DB)
    (ik : IdentityKeyRow) (spk : SignedPreKeyRow) (k : OneTimePreKeyRow)
    (hid : db.identityKeys.find? (fun r => r.userId == u) = some ik)
    (hspk : db.signedPreKeys.find? (fun r => r.userId == u) = some spk)
    (hone : db.oneTimePreKeys.filter (fun r => r.userId == u) = [k]) :
    (∀ (dbx dbx' : DB) (bx : PreKeyBundle) (kx : PreKeyPair),
      getPreKeyBundle dbx u = .ok (dbx', bx) → bx.oneTimePreKey = some kx →
      ∃ row ∈ dbx.oneTimePreKeys, row.userId = u ∧ row.keyId = kx.keyId ∧
        row.publicKey = kx.publicKey ∧
        (∀ r ∈ dbx.oneTimePreKeys, r.userId = u → kx.keyId ≤ r.keyId) ∧
        dbx'.oneTimePreKeys = dbx.oneTimePreKeys.filter (fun r => r.id != row.id)) ∧
    getPreKeyBundle db u = .ok
      ({ db with oneTimePreKeys := db.oneTimePreKeys.filter (fun r => r.id != k.id) },
       { userId := u, registrationId := ik.registrationId, identityKey := ik.publicKey,
         signedPreKey := { keyId := spk.keyId, publicKey := spk.publicKey,
                           signature := spk.signature },
         oneTimePreKey := some { keyId := k.keyId, publicKey := k.publicKey } }) ∧
    (db.oneTimePreKeys.filter (fun r => r.id != k.id)).filter (fun r => r.userId == u)
      = [] ∧
    getPreKeyBundle
      { db with oneTimePreKeys := db.oneTimePreKeys.filter (fun r => r.id != k.id) } u
      = .ok
      ({ db with oneTimePreKeys := db.oneTimePreKeys.filter (fun r => r.id != k.id) },
       { userId := u, registrationId := ik.registrationId, identityKey := ik.publicKey,
         signedPreKey := { keyId := spk.keyId, publicKey := spk.publicKey,
                           signature := spk.signature },
         oneTimePreKey := none }) := by
  have hkmem : k ∈ db.oneTimePreKeys.filter (fun r => r.userId == u) := by
    rw [hone]; exact List.mem_cons_self _ _
  have hfilterEmpty :
      (db.oneTimePreKeys.filter (fun r => r.id != k.id)).filter (fun r => r.userId == u)
        = [] := by
    rw [List.filter_filter, List.filter_eq_nil_iff]
    intro r hr hcond
    simp only [Bool.and_eq_true, beq_iff_eq, bne_iff_ne] at hcond
    have hrk : r = k := by
      have hrmem : r ∈ db.oneTimePreKeys.filter (fun r => r.userId == u) :=
        List.mem_filter.mpr ⟨hr, by simp [hcond.1]⟩
      rw [hone] at hrmem
      simpa using hrmem
    exact hcond.2 (by rw [hrk])
  refine ⟨?_, ?_, hfilterEmpty, ?_⟩
  · intro dbx dbx' bx kx hok hkx
    unfold getPreKeyBundle at hok
    cases hidx : dbx.identityKeys.find? (fun r => r.userId == u) with
    | none => rw [hidx] at hok; cases hok
    | some ikx =>
      rw [hidx] at hok
      cases hspkx : dbx.signedPreKeys.find? (fun r => r.userId == u) with
      | none => rw [hspkx] at hok; cases hok
      | some spkx =>
        rw [hspkx] at hok
        cases hpick : findFirstByKeyIdAsc
            (dbx.oneTimePreKeys.filter (fun r => r.userId == u)) with
        | none =>
          rw [hpick] at hok
          obtain ⟨rfl, rfl⟩ := Prod.mk.injEq .. ▸ Except.ok.inj hok
          cases hkx
        | some row =>
          rw [hpick] at hok
          obtain ⟨h1, h2⟩ := Prod.mk.inj (Except.ok.inj hok)
          obtain ⟨hrowMem, hrowMin⟩ := findFirstByKeyIdAsc_spec _ _ hpick
          have hrowU : row.userId = u := by
            have := List.of_mem_filter hrowMem
            simpa using this
          have hkxEq : kx = { keyId := row.keyId, publicKey := row.publicKey } := by
            have : bx.oneTimePreKey = some { keyId := row.keyId, publicKey := row.publicKey } := by
              rw [← h2]
            rw [hkx] at this
            exact Option.some.inj this
          refine ⟨row, List.mem_of_mem_filter hrowMem, hrowU, ?_, ?_, ?_, ?_⟩
          · rw [hkxEq]
          · rw [hkxEq]
          · intro r hr hru
            have hrf : r ∈ dbx.oneTimePreKeys.filter (fun r => r.userId == u) := by
              apply List.mem_filter.mpr
              exact ⟨hr, by simp [hru]⟩
            rw [hkxEq]
            exact hrowMin r hrf
          · rw [← h1]
  · unfold getPreKeyBundle
    rw [hid, hspk, hone]
    simp [findFirstByKeyIdAsc]
  · unfold getPreKeyBundle
    dsimp only
    rw [hid, hspk, hfilterEmpty]
    simp [findFirstByKeyIdAsc]

/-- Concrete store for the C6 witness: user x with identity key, signed
pre-key and exactly one one-time pre-key. -/
def preKeyDb : DB :=
  { identityKeys := [{ userId := "x", publicKey := "IK", registrationId := 7 }],
    signedPreKeys := [{ userId := "x", keyId := 3, publicKey := "SPK",
                        signature := "SIG" }],
    oneTimePreKeys := [{ id := 10, userId := "x", keyId := 5, publicKey := "OTPK" }] }

/-- Witness for C6: on the concrete store the first fetch returns and deletes
the single one-time pre-key. -/
theorem getPreKeyBundle_one_shot_witness :
    getPreKeyBundle preKeyDb "x" = .ok
      ({ preKeyDb with oneTimePreKeys :=
           preKeyDb.oneTimePreKeys.filter (fun r =>
             r.id != (10 : Nat)) },
       { userId := "x", registrationId := 7, identityKey := "IK",
         signedPreKey := { keyId := 3, publicKey := "SPK", signature := "SIG" },
         oneTimePreKey := some { keyId := 5, publicKey := "OTPK" } }) :=
  (getPreKeyBundle_one_shot "x" preKeyDb
      { userId := "x", publicKey := "IK", registrationId := 7 }
      { userId := "x", keyId := 3, publicKey := "SPK", signature := "SIG" }
      { id := 10, userId := "x", keyId := 5, publicKey := "OTPK" }
      (by decide) (by decide) (by decide)).2.1

/-! ## Block / unblock (src/unnamed/part_011, friend controller)

The controller's HTTP responses are embedded as `Except Err`: 401 / 400 /
404 / 403 map to dedicated `Err` constructors, 200 to `.ok` carrying the
friendship row it reports.  The decorative `isBlocked` recomputation in the
success payload is omitted. -/

/-- Embeds `blockFriend`: upserts the (unordered) relationship row to
BLOCKED.  An existing row is updated in place — its `requesterId` /
`addresseeId` are NOT changed; a missing row is created with the blocker as
requester. -/
def blockFriend (db : DB) (meId targetUser : UserId) : Except Err (DB × Friendship) :=
  if meId == "" then .error .unauthorized
  else if targetUser == "" then .error .badRequest
  else if targetUser == meId then .error .badRequest
  else if !(db.users.contains targetUser) then .error .targetNotFound
  else
    match db.friendships.find? (fun f =>
        (f.requesterId == meId && f.addresseeId == targetUser) ||
        (f.requesterId == targetUser && f.addresseeId == meId)) with
    | some existing =>
      if existing.status == .BLOCKED then .ok (db, existing)
      else
        .ok ({ db with
                 friendships := db.friendships.map (fun f =>
                   if f.id == existing.id then
                     { f with status := .BLOCKED, updatedAt := db.clock }
                   else f),
                 clock := db.clock + 1 },
             { existing with status := .BLOCKED, updatedAt := db.clock })
    | none =>
      .ok ({ db with
               friendships := db.friendships ++
                 [{ id := db.nextId, requesterId := meId, addresseeId := targetUser,
                    status := .BLOCKED, updatedAt := db.clock }],
               nextId := db.nextId + 1,
               clock := db.clock + 1 },
           { id := db.nextId, requesterId := meId, addresseeId := targetUser,
             status := .BLOCKED, updatedAt := db.clock })

/-- Embeds `unblockFriend`: finds a BLOCKED row in either orientation; the
"did the other user impose the block" test compares the row's STORED
`requesterId`/`addresseeId` against the caller; on success transitions the
row to ACCEPTED. -/
def unblockFriend (db : DB) (meId targetUser : UserId) : Except Err (DB × Friendship) :=
  if meId == "" then .error .unauthorized
  else if targetUser == "" then .error .badRequest
  else if targetUser == meId then .error .badRequest
  else if !(db.users.contains targetUser) then .error .targetNotFound
  else
    match db.friendships.find? (fun f =>
        (f.requesterId == meId && f.addresseeId == targetUser && f.status == .BLOCKED) ||
        (f.requesterId == targetUser && f.addresseeId == meId && f.status == .BLOCKED)) with
    | none => .error .noBlockedRelationship
    | some friendship =>
      if friendship.requesterId == targetUser && friendship.addresseeId == meId then
        .error .cannotUnblock
      else
        .ok ({ db with
                 friendships := db.friendships.map (fun f =>
                   if f.id == friendship.id then
                     { f with status := .ACCEPTED, acceptedAt := some db.clock,
                              updatedAt := db.clock }
                   else f),
                 clock := db.clock + 1 },
             { friendship with status := .ACCEPTED, acceptedAt := some db.clock,
                               updatedAt := db.clock })

/-- Store before the block: A had requested B, the request was accepted, so
the stored row is (requester A, addressee B, ACCEPTED). -/
def upsertBlockDb : DB :=
  { users := ["A", "B"],
    friendships := [{ id := 1, requesterId := "A", addresseeId := "B",
                      status := .ACCEPTED, acceptedAt := some 0, updatedAt := 0 }],
    nextId := 2, clock := 5 }

/-- Store after B blocks A: the row was upserted to BLOCKED but still stores
requester A, addressee B. -/
def upsertBlockDbAfter : DB :=
  { users := ["A", "B"],
    friendships := [{ id := 1, requesterId := "A", addresseeId := "B",
                      status := .BLOCKED, acceptedAt := some 0, updatedAt := 5 }],
    nextId := 2, clock := 6 }

/-- C5 (evaluation at the failing input): when B blocks A over an older row
that stores A as requester, the code then forbids B — the party who imposed
the block — from unblocking, while the blocked user A is allowed to unblock
and the row transitions to ACCEPTED.  This contradicts the claim (and the
code's own 403 message) that exactly the blocker may unblock. -/
theorem unblockFriend_wrong_party_check :
    blockFriend upsertBlockDb "B" "A" = .ok
      (upsertBlockDbAfter,
       { id := 1, requesterId := "A", addresseeId := "B", status := .BLOCKED,
         acceptedAt := some 0, updatedAt := 5 }) ∧
    unblockFriend upsertBlockDbAfter "B" "A" = .error .cannotUnblock ∧
    unblockFriend upsertBlockDbAfter "A" "B" = .ok
      ({ users := ["A", "B"],
         friendships := [{ id := 1, requesterId := "A", addresseeId := "B",
                           status := .ACCEPTED, acceptedAt := some 6, updatedAt := 6 }],
         nextId := 2, clock := 7 },
       { id := 1, requesterId := "A", addresseeId := "B", status := .ACCEPTED,
         acceptedAt := some 6, updatedAt := 6 }) := by
  refine ⟨?_, ?_, ?_⟩ <;> decide

/-! ## Message ledger (src/src/services/friendService.js) -/

/-- JavaScript truthiness of an optional string (`undefined` and `''` are
falsy). -/
def truthy : Option String → Bool
  | some s => s != ""
  | none => false

/-- Returns `true` on `.ok`, `false` on `.error`. -/
def okOf {α : Type} (e : Except Err α) : Bool :=
  match e with
  | .ok _ => true
  | .error _ => false

structure CreateMessageArgs where
  senderId : UserId
  conversationId : Nat
  content : Option String := none
  contentType : ContentType := .TEXT
  attachmentUrl : Option String := none
  replyToId : Option Nat := none
deriving DecidableEq, Repr

structure CreateMessageResult where
  message : Message
  recipients : List UserId
  updatedParticipants : List (UserId × Int)
deriving DecidableEq, Repr

/-- Does a receipt row (messageId, userId) exist? -/
def hasReceipt (db : DB) (mid : Nat) (u : UserId) : Bool :=
  db.receipts.any (fun r => r.messageId == mid && r.userId == u)

/-- The message row inserted by the `createMessage` transaction
(`content || ''`, `attachmentUrl || null`). -/
def txMessage (db : DB) (a : CreateMessageArgs) : Message :=
  { id := db.nextId, conversationId := a.conversationId, senderId := a.senderId,
    content := a.content.getD "", contentType := a.contentType,
    attachmentUrl := if truthy a.attachmentUrl then a.attachmentUrl else none,
    replyToId := a.replyToId, createdAt := db.clock }

/-- `recipients = participants.map(userId).filter(id != senderId)` of the
`createMessage` transaction. -/
def txRecipients (db : DB) (a : CreateMessageArgs) : List UserId :=
  ((db.participants.filter (fun p => p.conversationId == a.conversationId)).map
    (fun p => p.userId)).filter (fun uid => uid != a.senderId)

/-- Participant table after the transaction: each recipient's `unreadCount`
incremented by the batched `updateMany`, unless the message is a
key-distribution control message. -/
def txParticipants (db : DB) (a : CreateMessageArgs) : List Participant :=
  if a.contentType == .SIGNAL_KEY_DISTRIBUTION then db.participants
  else db.participants.map (fun p =>
    if p.conversationId == a.conversationId && (txRecipients db a).contains p.userId then
      { p with unreadCount := p.unreadCount + 1 }
    else p)

/-- Conversation table after the transaction: `lastMessageId`/`updatedAt`
bumped, unless the message is a key-distribution control message. -/
def txConversations (db : DB) (a : CreateMessageArgs) : List Conversation :=
  if a.contentType == .SIGNAL_KEY_DISTRIBUTION then db.conversations
  else db.conversations.map (fun c =>
    if c.id == a.conversationId then
      { c with lastMessageId := some (txMessage db a).id, updatedAt := db.clock }
    else c)

/-- Store state after the `createMessage` transaction. -/
def txDb (db : DB) (a : CreateMessageArgs) : DB :=
  { db with messages := db.messages ++ [txMessage db a],
            participants := txParticipants db a,
            conversations := txConversations db a,
            nextId := db.nextId + 1, clock := db.clock + 1 }

/-- The `prisma.$transaction` body of `createMessage`, run after all
precondition checks passed: insert the message row; compute recipients =
participants minus sender; unless the message is a key-distribution control
message, increment every recipient's `unreadCount` and bump the
conversation's `lastMessageId`/`updatedAt`; re-read the recipients' rows for
the result. -/
def createMessageTx (db : DB) (a : CreateMessageArgs) : DB × CreateMessageResult :=
  (txDb db a,
   { message := txMessage db a, recipients := txRecipients db a,
     updatedParticipants :=
       ((txDb db a).participants.filter (fun p =>
         p.conversationId == a.conversationId &&
           (txRecipients db a).contains p.userId)).map
         (fun p => (p.userId, p.unreadCount)) })

/-- Embeds `createMessage`: shape check (`!content && !attachmentUrl &&
!isKeyDistribution` is rejected), conversation existence, sender membership,
and — for DIRECT conversations — the recipient-side block check, then the
transaction. -/
def createMessage (db : DB) (a : CreateMessageArgs) : Except Err (DB × CreateMessageResult) :=
  if !truthy a.content && !truthy a.attachmentUrl &&
      !(a.contentType == .SIGNAL_KEY_DISTRIBUTION) then
    .error .noContent
  else
    match db.conversations.find? (fun c => c.id == a.conversationId) with
    | none => .error .conversationNotFound
    | some conversation =>
      if (db.participants.find? (fun p =>
            p.conversationId == a.conversationId && p.userId == a.senderId)).isNone then
        .error .notParticipant
      else if conversation.type == .DIRECT then
        match db.participants.find? (fun p =>
            p.conversationId == a.conversationId && p.userId != a.senderId) with
        | some otherParticipant =>
          match isBlocked db otherParticipant.userId a.senderId with
          | .error e => .error e
          | .ok true => .error .blockedByRecipient
          | .ok false => .ok (createMessageTx db a)
        | none => .ok (createMessageTx db a)
      else .ok (createMessageTx db a)

structure MarkAsReadResult where
  marked : Nat
  newUnreadCount : Int
deriving DecidableEq, Repr

/-- The `findMany` of `markAsRead`: messages of the conversation authored by
someone else, at/before the optional time boundary, with no receipt for the
reader. -/
def unreadSelect (db : DB) (userId : UserId) (conversationId : Nat)
    (bound : Option Nat) : List Message :=
  db.messages.filter (fun m =>
    m.conversationId == conversationId && m.senderId != userId &&
    (match bound with
     | some b => decide (m.createdAt ≤ b)
     | none => true) &&
    !hasReceipt db m.id userId)

/-- Receipt table after `createMany({data: unread receipts, skipDuplicates:
true})`: the new (messageId, userId) pairs, minus those already present. -/
def readReceiptsAfter (db : DB) (userId : UserId) (S : List Message) : List MessageReceipt :=
  db.receipts ++
    ((S.map (fun m => ({ messageId := m.id, userId := userId } : MessageReceipt))).filter
      (fun r => !(db.receipts.any (fun r0 =>
        r0.messageId == r.messageId && r0.userId == r.userId))))

/-- Participant table after `unreadCount: {decrement: count}` on the
(conversationId, userId) row. -/
def decParticipants (db : DB) (userId : UserId) (conversationId : Nat) (n : Nat) :
    List Participant :=
  db.participants.map (fun p =>
    if p.conversationId == conversationId && p.userId == userId then
      { p with unreadCount := p.unreadCount - (n : Int) }
    else p)

/-- The defensive second update resetting a negative counter to zero. -/
def clampParticipants (l : List Participant) (userId : UserId) (conversationId : Nat) :
    List Participant :=
  l.map (fun p =>
    if p.conversationId == conversationId && p.userId == userId then
      { p with unreadCount := 0 }
    else p)

/-- The body of `markAsRead` once the boundary is resolved: select unread
messages; if none, report the current counter; otherwise insert receipts
(duplicate-insert-safe), decrement the participant's counter by the number
newly receipted, and clamp a negative result back to zero with a second
update. -/
def markAsReadCore (db : DB) (userId : UserId) (conversationId : Nat)
    (bound : Option Nat) : Except Err (DB × MarkAsReadResult) :=
  if (unreadSelect db userId conversationId bound).length = 0 then
    .ok (db, { marked := 0,
               newUnreadCount :=
                 ((db.participants.find? (fun p =>
                     p.conversationId == conversationId && p.userId == userId)).map
                   (fun p => p.unreadCount)).getD 0 })
  else
    match db.participants.find? (fun p =>
        p.conversationId == conversationId && p.userId == userId) with
    | none => .error .participantMissing
    | some _ =>
      if (((decParticipants db userId conversationId
              (unreadSelect db userId conversationId bound).length).find? (fun p =>
            p.conversationId == conversationId && p.userId == userId)).map
          (fun p => p.unreadCount)).getD 0 < 0 then
        .ok ({ db with
                 receipts := readReceiptsAfter db userId
                   (unreadSelect db userId conversationId bound),
                 participants := clampParticipants
                   (decParticipants db userId conversationId
                     (unreadSelect db userId conversationId bound).length)
                   userId conversationId },
             { marked := (unreadSelect db userId conversationId bound).length,
               newUnreadCount := 0 })
      else
        .ok ({ db with
                 receipts := readReceiptsAfter db userId
                   (unreadSelect db userId conversationId bound),
                 participants := decParticipants db userId conversationId
                   (unreadSelect db userId conversationId bound).length },
             { marked := (unreadSelect db userId conversationId bound).length,
               newUnreadCount :=
                 (((decParticipants db userId conversationId
                     (unreadSelect db userId conversationId bound).length).find?
                       (fun p =>
                         p.conversationId == conversationId && p.userId == userId)).map
                   (fun p => p.unreadCount)).getD 0 })

/-- Embeds `markAsRead`: an explicit `lastReadMessageId` must name a message
of this conversation (else `InvalidArgument`) and defines an inclusive
`createdAt` boundary. -/
def markAsRead (db : DB) (userId : UserId) (conversationId : Nat)
    (lastReadMessageId : Option Nat) : Except Err (DB × MarkAsReadResult) :=
  match lastReadMessageId with
  | some mid =>
    match db.messages.find? (fun m => m.id == mid) with
    | none => .error .invalidLastRead
    | some target =>
      if target.conversationId != conversationId then .error .invalidLastRead
      else markAsReadCore db userId conversationId (some target.createdAt)
  | none => markAsReadCore db userId conversationId none

structure EditMessageResult where
  message : Message
  participants : List UserId
deriving DecidableEq, Repr

/-- Embeds `editMessage`: sender-only, rejects empty content, sets content
and `editedAt`, returns participant ids for fan-out. -/
def editMessage (db : DB) (messageId : Nat) (userId : UserId) (newContent : String) :
    Except Err (DB × EditMessageResult) :=
  if newContent == "" || newContent.trim == "" then .error .emptyContent
  else
    match db.messages.find? (fun m => m.id == messageId) with
    | none => .error .messageNotFound
    | some message =>
      if message.senderId != userId then .error .notSender
      else
        .ok ({ db with
                 messages := db.messages.map (fun m =>
                   if m.id == messageId then
                     { m with content := newContent, editedAt := some db.clock }
                   else m),
                 clock := db.clock + 1 },
             { message := { message with content := newContent, editedAt := some db.clock },
               participants := (db.participants.filter (fun p =>
                 p.conversationId == message.conversationId)).map (fun p => p.userId) })

structure DeleteMessageResult where
  id : Nat
  conversationId : Nat
  participants : List UserId
deriving DecidableEq, Repr

/-- Embeds `deleteMessage`: sender-only hard delete of the row; unread
counters are not touched. -/
def deleteMessage (db : DB) (messageId : Nat) (userId : UserId) :
    Except Err (DB × DeleteMessageResult) :=
  match db.messages.find? (fun m => m.id == messageId) with
  | none => .error .messageNotFound
  | some message =>
    if message.senderId != userId then .error .notSender
    else
      .ok ({ db with messages := db.messages.filter (fun m => m.id != messageId) },
           { id := messageId, conversationId := message.conversationId,
             participants := (db.participants.filter (fun p =>
               p.conversationId == message.conversationId)).map (fun p => p.userId) })

/-- C4 (amended): the shape check of `createMessage` rejects with the
input error exactly when content is empty/absent AND the attachment is
empty/absent AND the content type is not key distribution; in particular a
message carrying both content and an attachment passes the check. -/
theorem createMessage_noContent_iff (db : DB) (a : CreateMessageArgs) :
    createMessage db a = .error .noContent ↔
    (truthy a.content = false ∧ truthy a.attachmentUrl = false ∧
     a.contentType ≠ .SIGNAL_KEY_DISTRIBUTION) := by
  unfold createMessage
  by_cases hc : (!truthy a.content && !truthy a.attachmentUrl &&
      !(a.contentType == .SIGNAL_KEY_DISTRIBUTION)) = true
  · rw [if_pos hc]
    simp only [Bool.and_eq_true, Bool.not_eq_true'] at hc
    refine ⟨fun _ => ⟨hc.1.1, hc.1.2, ?_⟩, fun _ => rfl⟩
    intro heq
    rw [heq] at hc
    simp at hc
  · rw [if_neg hc]
    constructor
    · intro h
      exfalso
      split at h
      · exact absurd (Except.error.inj h) (by decide)
      · split at h
        · exact absurd (Except.error.inj h) (by decide)
        · split at h
          · split at h
            · split at h
              · -- the block check itself threw; its only error is `missingIds`
                rename_i e hbl
                have he : e = Err.noContent := Except.error.inj h
                subst he
                unfold isBlocked at hbl
                split at hbl
                · exact absurd (Except.error.inj hbl) (by decide)
                · simp at hbl
              · exact absurd (Except.error.inj h) (by decide)
              · simp at h
            · simp at h
          · simp at h
    · rintro ⟨h1, h2, h3⟩
      exfalso
      apply hc
      simp [h1, h2, h3]

/-- Conversation store used by the message-ledger witnesses: one DIRECT
conversation (id 1) between users a and b, no blocks. -/
def msgDb : DB :=
  { users := ["a", "b"],
    conversations := [{ id := 1, type := .DIRECT, participantAId := some "a",
                        participantBId := some "b" }],
    participants := [{ conversationId := 1, userId := "a" },
                     { conversationId := 1, userId := "b" }],
    nextId := 2, clock := 1 }

/-- Arguments carrying BOTH content and an attachment. -/
def bothShapeArgs : CreateMessageArgs :=
  { senderId := "a", conversationId := 1, content := some "hi",
    contentType := .TEXT, attachmentUrl := some "http://img" }

/-- Counterexample to C4 as stated: a message supplying both content and an
attachment — not one of the claim's accepted shapes — is accepted by
`createMessage` rather than rejected with an input error. -/
theorem createMessage_accepts_content_and_attachment :
    okOf (createMessage msgDb bothShapeArgs) = true ∧
    truthy bothShapeArgs.content = true ∧
    truthy bothShapeArgs.attachmentUrl = true ∧
    bothShapeArgs.contentType ≠ .SIGNAL_KEY_DISTRIBUTION := by
  refine ⟨?_, ?_, ?_, ?_⟩ <;> decide

/-- C2 (claim): a successful key-distribution send persists and returns the
message but leaves every participant row (hence every unreadCount) and every
conversation row (hence `lastMessageId`/`updatedAt`) unchanged. -/
theorem createMessage_keyDistribution_frame (db : DB) (a : CreateMessageArgs)
    (db' : DB) (res : CreateMessageResult)
    (hok : createMessage db a = .ok (db', res))
    (hkd : a.contentType = .SIGNAL_KEY_DISTRIBUTION) :
    db'.messages = db.messages ++ [res.message] ∧
    res.message.contentType = .SIGNAL_KEY_DISTRIBUTION ∧
    db'.participants = db.participants ∧
    db'.conversations = db.conversations := by
  unfold createMessage at hok
  have htx : createMessageTx db a = (db', res) := by
    repeat' split at hok
    all_goals try exact Except.ok.inj hok
    all_goals simp at hok
  have h1 : db' = (createMessageTx db a).1 := by rw [htx]
  have h2 : res = (createMessageTx db a).2 := by rw [htx]
  subst h1; subst h2
  refine ⟨?_, ?_, ?_, ?_⟩ <;>
    simp [createMessageTx, txDb, txParticipants, txConversations, txMessage, hkd]

/-- Key-distribution arguments for the C2 witness. -/
def kdArgs : CreateMessageArgs :=
  { senderId := "a", conversationId := 1, content := some "keymaterial",
    contentType := .SIGNAL_KEY_DISTRIBUTION }

/-- The state/result pair produced by the C2 witness send. -/
def kdOut : DB × CreateMessageResult := createMessageTx msgDb kdArgs

/-- Witness for C2 at a concrete store: the key-distribution send appends
the message but changes no participant and no conversation row. -/
theorem createMessage_keyDistribution_frame_witness :
    kdOut.1.messages = msgDb.messages ++ [kdOut.2.message] ∧
    kdOut.2.message.contentType = .SIGNAL_KEY_DISTRIBUTION ∧
    kdOut.1.participants = msgDb.participants ∧
    kdOut.1.conversations = msgDb.conversations :=
  createMessage_keyDistribution_frame msgDb kdArgs kdOut.1 kdOut.2
    (by decide) (by decide)

/-! ## Unread-count bookkeeping: observables and invariant -/

/-- Messages stored for conversation `c`. -/
def msgsIn (db : DB) (c : Nat) : List Message :=
  db.messages.filter (fun m => m.conversationId == c)

/-- The stored `unreadCount` of participant `u` in conversation `c`
(0 when the row is absent, matching `participant?.unreadCount ?? 0`). -/
def unreadOf (db : DB) (u : UserId) (c : Nat) : Int :=
  ((db.participants.find? (fun p => p.conversationId == c && p.userId == u)).map
    (fun p => p.unreadCount)).getD 0

/-- Number of messages of conversation `c` authored by someone other than
`u` — the messages whose sends increment u's counter. -/
def sentTo (db : DB) (c : Nat) (u : UserId) : Nat :=
  ((msgsIn db c).filter (fun m => m.senderId != u)).length

/-- Number of messages of conversation `c`, authored by someone else, that
`u` has receipted. -/
def readBy (db : DB) (c : Nat) (u : UserId) : Nat :=
  ((msgsIn db c).filter (fun m => m.senderId != u && hasReceipt db m.id u)).length

/-- Number of messages of conversation `c`, authored by someone else, with
no receipt for `u` — the "actual" unread count of the spec invariant. -/
def unreceipted (db : DB) (c : Nat) (u : UserId) : Nat :=
  ((msgsIn db c).filter (fun m => m.senderId != u && !hasReceipt db m.id u)).length

theorem length_filter_and_split {α : Type} (l : List α) (p q : α → Bool) :
    (l.filter p).length =
      (l.filter (fun x => p x && q x)).length +
      (l.filter (fun x => p x && !q x)).length := by
  induction l with
  | nil => simp
  | cons a t ih =>
    by_cases hp : p a <;> by_cases hq : q a <;>
      simp [List.filter_cons, hp, hq, ih] <;> omega

/-- Always: messages from others split into receipted and unreceipted. -/
theorem sentTo_eq_readBy_add_unreceipted (db : DB) (c : Nat) (u : UserId) :
    sentTo db c u = readBy db c u + unreceipted db c u := by
  unfold sentTo readBy unreceipted
  exact length_filter_and_split (msgsIn db c) (fun m => m.senderId != u)
    (fun m => hasReceipt db m.id u)

theorem eq_of_pairwise_ne_id {l : List Message}
    (h : l.Pairwise (fun m1 m2 => m1.id ≠ m2.id)) {a b : Message}
    (ha : a ∈ l) (hb : b ∈ l) (heq : a.id = b.id) : a = b := by
  induction l with
  | nil => cases ha
  | cons x t ih =>
    rcases List.mem_cons.mp ha with rfl | ha' <;>
      rcases List.mem_cons.mp hb with rfl | hb'
    · rfl
    · exact absurd heq ((List.pairwise_cons.mp h).1 b hb')
    · exact absurd heq.symm ((List.pairwise_cons.mp h).1 a ha')
    · exact ih (List.pairwise_cons.mp h).2 ha' hb'

/-- Reachable-state invariant of the unread-count engine, with an explicit
nonnegative drift `d`: the stored counter exceeds the actual count of
unreceipted messages by exactly `d` (`d = 0` in normal operation; a hard
delete of an unread message raises `d` by one). -/
structure LedgerInv (P : UserId) (C : Nat) (d : Nat) (db : DB) : Prop where
  partExists : (db.participants.find? (fun p =>
    p.conversationId == C && p.userId == P)).isSome = true
  msgIds : ∀ m ∈ db.messages, m.id < db.nextId
  msgsNodupIds : db.messages.Pairwise (fun m1 m2 => m1.id ≠ m2.id)
  rcptIds : ∀ r ∈ db.receipts, r.messageId < db.nextId
  balance : unreadOf db P C = (unreceipted db C P : Int) + (d : Int)

/-- A freshly materialized conversation: no messages yet, `P`'s participant
row exists with counter 0, and generated ids are in range. -/
def FreshLedger (P : UserId) (C : Nat) (db : DB) : Prop :=
  msgsIn db C = [] ∧
  (db.participants.find? (fun p =>
    p.conversationId == C && p.userId == P)).isSome = true ∧
  unreadOf db P C = 0 ∧
  (∀ m ∈ db.messages, m.id < db.nextId) ∧
  db.messages.Pairwise (fun m1 m2 => m1.id ≠ m2.id) ∧
  (∀ r ∈ db.receipts, r.messageId < db.nextId)

theorem FreshLedger.toInv {P : UserId} {C : Nat} {db : DB}
    (h : FreshLedger P C db) : LedgerInv P C 0 db := by
  obtain ⟨hmsgs, hfind, hzero, hids, hnodup, hrids⟩ := h
  refine ⟨hfind, hids, hnodup, hrids, ?_⟩
  unfold unreceipted
  rw [show msgsIn db C = [] from hmsgs]
  simpa using hzero

theorem find?_map_keyPreserving {α : Type} (l : List α) (key : α → Bool)
    (g : α → α) (hg : ∀ p, key (g p) = key p) :
    (l.map g).find? key = (l.find? key).map g := by
  have hfg : key ∘ g = key := funext hg
  rw [List.find?_map, hfg]

/-- A fresh id can carry no receipt yet. -/
theorem hasReceipt_nextId (db : DB) (u : UserId)
    (h : ∀ r ∈ db.receipts, r.messageId < db.nextId) :
    hasReceipt db db.nextId u = false := by
  unfold hasReceipt
  rw [List.any_eq_false]
  intro r hr
  simp only [Bool.and_eq_true, beq_iff_eq, not_and]
  intro hid
  exact absurd hid (Nat.ne_of_lt (h r hr))

/-- The sender is never among the computed recipients. -/
theorem sender_not_mem_txRecipients (db : DB) (a : CreateMessageArgs) :
    a.senderId ∉ txRecipients db a := by
  intro hmem
  have := (List.mem_filter.mp hmem).2
  simp at this

/-- A participant of the conversation other than the sender is a recipient. -/
theorem mem_txRecipients_of_participant (db : DB) (a : CreateMessageArgs)
    (row : Participant) (hrow : row ∈ db.participants)
    (hconv : row.conversationId = a.conversationId) (hne : row.userId ≠ a.senderId) :
    row.userId ∈ txRecipients db a := by
  unfold txRecipients
  apply List.mem_filter.mpr
  refine ⟨List.mem_map.mpr ⟨row, List.mem_filter.mpr ⟨hrow, by simp [hconv]⟩, rfl⟩, ?_⟩
  simp [hne]

/-- Sending a non-control message into the conversation preserves the
ledger invariant: the recipient's counter and the count of unreceipted
messages move together. -/
theorem createMessage_step (P : UserId) (d : Nat) (db : DB)
    (a : CreateMessageArgs) (db' : DB) (res : CreateMessageResult)
    (hinv : LedgerInv P a.conversationId d db)
    (hct : a.contentType ≠ .SIGNAL_KEY_DISTRIBUTION)
    (hok : createMessage db a = .ok (db', res)) :
    LedgerInv P a.conversationId d db' := by
  have htx : createMessageTx db a = (db', res) := by
    unfold createMessage at hok
    repeat' split at hok
    all_goals try exact Except.ok.inj hok
    all_goals simp at hok
  unfold createMessageTx at htx
  have h1 : txDb db a = db' := (Prod.mk.inj htx).1
  subst h1
  have hkd : (a.contentType == ContentType.SIGNAL_KEY_DISTRIBUTION) = false := by
    simp [hct]
  -- the recipient-increment map preserves the participant keys
  have hg : ∀ p : Participant,
      ((if p.conversationId == a.conversationId &&
          (txRecipients db a).contains p.userId then
        { p with unreadCount := p.unreadCount + 1 } else p).conversationId
          == a.conversationId &&
       (if p.conversationId == a.conversationId &&
          (txRecipients db a).contains p.userId then
        { p with unreadCount := p.unreadCount + 1 } else p).userId == P) =
      (p.conversationId == a.conversationId && p.userId == P) := by
    intro p
    split <;> rfl
  have hpart : (txDb db a).participants.find? (fun p =>
      p.conversationId == a.conversationId && p.userId == P) =
      (db.participants.find? (fun p =>
        p.conversationId == a.conversationId && p.userId == P)).map
        (fun p =>
          if p.conversationId == a.conversationId &&
              (txRecipients db a).contains p.userId then
            { p with unreadCount := p.unreadCount + 1 } else p) := by
    show (txParticipants db a).find? _ = _
    unfold txParticipants
    rw [if_neg (by simp [hkd])]
    exact find?_map_keyPreserving _ _ _ hg
  obtain ⟨row, hrow⟩ := Option.isSome_iff_exists.mp hinv.partExists
  have hkeyrow := List.find?_some hrow
  simp only [Bool.and_eq_true, beq_iff_eq] at hkeyrow
  obtain ⟨hrowConv, hrowUser⟩ := hkeyrow
  -- receipts are untouched by the transaction
  have hrcpt : hasReceipt (txDb db a) = hasReceipt db := rfl
  -- count of unreceipted messages after the send
  have hmsgs : msgsIn (txDb db a) a.conversationId =
      msgsIn db a.conversationId ++ [txMessage db a] := by
    unfold msgsIn
    show (db.messages ++ [txMessage db a]).filter _ = _
    rw [List.filter_append]
    congr 1
    simp [txMessage]
  have hnew_unreceipted : ∀ u : UserId,
      unreceipted (txDb db a) a.conversationId u =
      unreceipted db a.conversationId u +
        (if (txMessage db a).senderId != u then 1 else 0) := by
    intro u
    unfold unreceipted
    rw [hmsgs, List.filter_append, List.length_append, hrcpt]
    congr 1
    have hnr : hasReceipt db (txMessage db a).id u = false := by
      show hasReceipt db db.nextId u = false
      exact hasReceipt_nextId db u hinv.rcptIds
    by_cases hsu : ((txMessage db a).senderId != u) = true
    · rw [if_pos hsu]
      simp [hsu, hnr]
    · rw [if_neg hsu]
      simp only [Bool.not_eq_true] at hsu
      simp [hsu, hnr]
  refine ⟨?_, ?_, ?_, ?_, ?_⟩
  · rw [hpart, hrow]
    rfl
  · intro m hm
    rcases List.mem_append.mp hm with hm' | hm'
    · exact Nat.lt_succ_of_lt (hinv.msgIds m hm')
    · have : m = txMessage db a := by simpa using hm'
      rw [this]
      exact Nat.lt_succ_self _
  · show (db.messages ++ [txMessage db a]).Pairwise _
    rw [List.pairwise_append]
    refine ⟨hinv.msgsNodupIds, by simp, ?_⟩
    intro m hm m' hm'
    have hid : m' = txMessage db a := by simpa using hm'
    rw [hid]
    exact Nat.ne_of_lt (hinv.msgIds m hm)
  · intro r hr
    exact Nat.lt_succ_of_lt (hinv.rcptIds r hr)
  · -- balance
    have hunread : unreadOf (txDb db a) P a.conversationId =
        unreadOf db P a.conversationId +
          (if (txMessage db a).senderId != P then 1 else 0) := by
      unfold unreadOf
      rw [hpart, hrow]
      by_cases hsp : a.senderId = P
      · have hnotmem : P ∉ txRecipients db a := by
          rw [← hsp]
          exact sender_not_mem_txRecipients db a
        have hsp' : ((txMessage db a).senderId != P) = false := by
          simp [txMessage, hsp]
        rw [hsp']
        simp [hrowUser, hnotmem]
      · have hmem : P ∈ txRecipients db a := by
          have hmem0 := mem_txRecipients_of_participant db a row
            (List.mem_of_find?_eq_some hrow) hrowConv
            (by rw [hrowUser]; exact fun h => hsp h.symm)
          rwa [hrowUser] at hmem0
        have hsp' : ((txMessage db a).senderId != P) = true := by
          simp only [txMessage, bne_iff_ne, ne_eq]
          exact hsp
        rw [hsp']
        simp [hmem, hrowConv, hrowUser]
    rw [hunread, hnew_unreceipted P, hinv.balance]
    split <;> push_cast <;> ring

theorem any_map_general {α β : Type} (l : List α) (f : α → β) (p : β → Bool) :
    (l.map f).any p = l.any (fun x => p (f x)) := by
  induction l with
  | nil => rfl
  | cons a t ih => simp [List.any_cons, ih]

/-- The `skipDuplicates` filter keeps every receipt generated from the
unread selection: those messages were selected receipt-free. -/
theorem readReceiptsAfter_unreadSelect (db : DB) (P : UserId) (c : Nat)
    (bound : Option Nat) :
    readReceiptsAfter db P (unreadSelect db P c bound) =
    db.receipts ++ (unreadSelect db P c bound).map
      (fun m => ({ messageId := m.id, userId := P } : MessageReceipt)) := by
  unfold readReceiptsAfter
  congr 1
  apply List.filter_eq_self.mpr
  intro r hr
  obtain ⟨m, hmS, rfl⟩ := List.mem_map.mp hr
  have hpred := List.of_mem_filter hmS
  simp only [Bool.and_eq_true] at hpred
  have h4 : (!hasReceipt db m.id P) = true := hpred.2
  exact h4

/-- Membership in the unread selection, by message id, is exactly the
selection predicate — given distinct message ids. -/
theorem any_unreadSelect_id (db : DB) (P : UserId) (c : Nat) (bound : Option Nat)
    (hnodup : db.messages.Pairwise (fun m1 m2 => m1.id ≠ m2.id))
    (m : Message) (hm : m ∈ db.messages) :
    (unreadSelect db P c bound).any (fun mp => mp.id == m.id) =
      (m.conversationId == c && m.senderId != P &&
        (match bound with
         | some b => decide (m.createdAt ≤ b)
         | none => true) && !hasReceipt db m.id P) := by
  by_cases hp : (m.conversationId == c && m.senderId != P &&
      (match bound with
       | some b => decide (m.createdAt ≤ b)
       | none => true) && !hasReceipt db m.id P) = true
  · rw [hp]
    rw [List.any_eq_true]
    exact ⟨m, List.mem_filter.mpr ⟨hm, hp⟩, by simp⟩
  · have hp' := Bool.eq_false_iff.mpr hp
    rw [hp']
    rw [List.any_eq_false]
    intro mp hmp
    have hmpMem := List.mem_filter.mp hmp
    simp only [beq_iff_eq]
    intro hid
    have hmpm : mp = m := eq_of_pairwise_ne_id hnodup hmpMem.1 hm hid
    rw [hmpm] at hmpMem
    exact hp hmpMem.2

/-- Reading preserves the ledger invariant with its drift untouched: the
counter and the unreceipted count drop by the same number (the count of
newly receipted messages), and the zero clamp never fires while the drift is
nonnegative. -/
theorem markAsReadCore_step (P : UserId) (c : Nat) (d : Nat) (db : DB)
    (bound : Option Nat) (db' : DB) (res : MarkAsReadResult)
    (hinv : LedgerInv P c d db)
    (hok : markAsReadCore db P c bound = .ok (db', res)) :
    LedgerInv P c d db' ∧
    res.newUnreadCount = unreadOf db' P c ∧
    db'.messages = db.messages ∧
    res.marked + unreceipted db' c P = unreceipted db c P := by
  unfold markAsReadCore at hok
  by_cases hn : (unreadSelect db P c bound).length = 0
  · rw [if_pos hn] at hok
    obtain ⟨h1, h2⟩ := Prod.mk.inj (Except.ok.inj hok)
    subst h1
    refine ⟨hinv, ?_, rfl, ?_⟩
    · rw [← h2]
      rfl
    · rw [← h2]
      simp
  · rw [if_neg hn] at hok
    cases hfind : db.participants.find? (fun p =>
        p.conversationId == c && p.userId == P) with
    | none =>
      rw [hfind] at hok
      simp at hok
    | some prow =>
      rw [hfind] at hok
      have hkeyrow := List.find?_some hfind
      simp only [Bool.and_eq_true, beq_iff_eq] at hkeyrow
      -- the decrement map preserves participant keys
      have hgdec : ∀ p : Participant,
          ((if p.conversationId == c && p.userId == P then
              { p with unreadCount :=
                  p.unreadCount - ((unreadSelect db P c bound).length : Int) }
            else p).conversationId == c &&
           (if p.conversationId == c && p.userId == P then
              { p with unreadCount :=
                  p.unreadCount - ((unreadSelect db P c bound).length : Int) }
            else p).userId == P) =
          (p.conversationId == c && p.userId == P) := by
        intro p
        split <;> rfl
      have hdecfind : (decParticipants db P c
            (unreadSelect db P c bound).length).find? (fun p =>
              p.conversationId == c && p.userId == P) =
          (db.participants.find? (fun p =>
            p.conversationId == c && p.userId == P)).map (fun p =>
              if p.conversationId == c && p.userId == P then
                { p with unreadCount :=
                    p.unreadCount - ((unreadSelect db P c bound).length : Int) }
              else p) := by
        unfold decParticipants
        exact find?_map_keyPreserving _ _ _ hgdec
      have hupd : (((decParticipants db P c
            (unreadSelect db P c bound).length).find? (fun p =>
              p.conversationId == c && p.userId == P)).map
            (fun p => p.unreadCount)).getD 0 =
          prow.unreadCount - ((unreadSelect db P c bound).length : Int) := by
        rw [hdecfind, hfind]
        simp [hkeyrow.1, hkeyrow.2]
      have hUn : unreadOf db P c = prow.unreadCount := by
        unfold unreadOf
        rw [hfind]
        rfl
      -- split the unreceipted messages along the time boundary
      have hsplit : unreceipted db c P =
          (unreadSelect db P c bound).length +
          ((msgsIn db c).filter (fun m =>
            (m.senderId != P && !hasReceipt db m.id P) &&
            !(match bound with
              | some b => decide (m.createdAt ≤ b)
              | none => true))).length := by
        unfold unreceipted
        rw [length_filter_and_split (msgsIn db c)
          (fun m => m.senderId != P && !hasReceipt db m.id P)
          (fun m => (match bound with
            | some b => decide (m.createdAt ≤ b)
            | none => true))]
        congr 1
        have hS : unreadSelect db P c bound = (msgsIn db c).filter (fun m =>
            (m.senderId != P && !hasReceipt db m.id P) &&
            (match bound with
              | some b => decide (m.createdAt ≤ b)
              | none => true)) := by
          unfold unreadSelect msgsIn
          rw [List.filter_filter]
          apply List.filter_congr
          intro m _
          cases h1 : (m.conversationId == c) <;>
            cases h2 : (m.senderId != P) <;>
            cases h3 : (match bound with
              | some b => decide (m.createdAt ≤ b)
              | none => true) <;>
            cases h4 : hasReceipt db m.id P <;>
            simp [h1, h2, h3, h4]
        rw [hS]
      have hnle : (unreadSelect db P c bound).length ≤ unreceipted db c P := by
        omega
      have hnneg : ¬((((decParticipants db P c
            (unreadSelect db P c bound).length).find? (fun p =>
              p.conversationId == c && p.userId == P)).map
            (fun p => p.unreadCount)).getD 0 < 0) := by
        rw [hupd]
        have hbal := hinv.balance
        rw [hUn] at hbal
        rw [hbal]
        omega
      rw [if_neg hnneg] at hok
      obtain ⟨h1, h2⟩ := Prod.mk.inj (Except.ok.inj hok)
      subst h1
      -- receipts after the insert, with skipDuplicates a no-op here
      have hrcpt' : ∀ mid : Nat,
          hasReceipt { db with
              receipts := readReceiptsAfter db P (unreadSelect db P c bound),
              participants := decParticipants db P c
                (unreadSelect db P c bound).length } mid P =
          (hasReceipt db mid P ||
            (unreadSelect db P c bound).any (fun mp => mp.id == mid)) := by
        intro mid
        show (readReceiptsAfter db P (unreadSelect db P c bound)).any _ = _
        rw [readReceiptsAfter_unreadSelect, List.any_append, any_map_general]
        have hfun : (fun x : Message =>
            ({ messageId := x.id, userId := P } : MessageReceipt).messageId == mid &&
            ({ messageId := x.id, userId := P } : MessageReceipt).userId == P) =
            (fun mp : Message => mp.id == mid) := by
          funext mp
          simp
        rw [hfun]
        rfl
      -- the new unreceipted count drops by exactly the marked count
      have hU' : unreceipted { db with
            receipts := readReceiptsAfter db P (unreadSelect db P c bound),
            participants := decParticipants db P c
              (unreadSelect db P c bound).length } c P =
          ((msgsIn db c).filter (fun m =>
            (m.senderId != P && !hasReceipt db m.id P) &&
            !(match bound with
              | some b => decide (m.createdAt ≤ b)
              | none => true))).length := by
        unfold unreceipted
        have hmsgs : msgsIn { db with
            receipts := readReceiptsAfter db P (unreadSelect db P c bound),
            participants := decParticipants db P c
              (unreadSelect db P c bound).length } c = msgsIn db c := rfl
        rw [hmsgs]
        congr 1
        apply List.filter_congr
        intro m hmIn
        have hm : m ∈ db.messages := (List.mem_filter.mp hmIn).1
        have hinC : (m.conversationId == c) = true := (List.mem_filter.mp hmIn).2
        rw [hrcpt' m.id, any_unreadSelect_id db P c bound hinv.msgsNodupIds m hm, hinC]
        cases h2' : (m.senderId != P) <;>
          cases h3 : (match bound with
            | some b => decide (m.createdAt ≤ b)
            | none => true) <;>
          cases h4 : hasReceipt db m.id P <;>
          simp [h2', h3, h4]
      refine ⟨⟨?_, ?_, ?_, ?_, ?_⟩, ?_, rfl, ?_⟩
      · show ((decParticipants db P c
            (unreadSelect db P c bound).length).find? (fun p =>
              p.conversationId == c && p.userId == P)).isSome = true
        rw [hdecfind, hfind]
        rfl
      · exact hinv.msgIds
      · exact hinv.msgsNodupIds
      · intro r hr
        show r.messageId < db.nextId
        have : r ∈ readReceiptsAfter db P (unreadSelect db P c bound) := hr
        rw [readReceiptsAfter_unreadSelect] at this
        rcases List.mem_append.mp this with hold | hnew
        · exact hinv.rcptIds r hold
        · obtain ⟨m, hmS, rfl⟩ := List.mem_map.mp hnew
          have hmm : m ∈ db.messages := (List.mem_filter.mp hmS).1
          exact hinv.msgIds m hmm
      · -- balance with unchanged drift
        show unreadOf { db with
            receipts := readReceiptsAfter db P (unreadSelect db P c bound),
            participants := decParticipants db P c
              (unreadSelect db P c bound).length } P c = _
        have hun' : unreadOf { db with
            receipts := readReceiptsAfter db P (unreadSelect db P c bound),
            participants := decParticipants db P c
              (unreadSelect db P c bound).length } P c =
            prow.unreadCount - ((unreadSelect db P c bound).length : Int) := by
          unfold unreadOf
          exact hupd
        rw [hun', hU']
        have hbal := hinv.balance
        rw [hUn] at hbal
        rw [hbal]
        omega
      · rw [← h2]
        rfl
      · rw [← h2]
        dsimp only
        rw [hU']
        omega

/-- Boundary resolution of `markAsRead` preserves the same facts. -/
theorem markAsRead_step (P : UserId) (c : Nat) (d : Nat) (db : DB)
    (lastReadMessageId : Option Nat) (db' : DB) (res : MarkAsReadResult)
    (hinv : LedgerInv P c d db)
    (hok : markAsRead db P c lastReadMessageId = .ok (db', res)) :
    LedgerInv P c d db' ∧
    res.newUnreadCount = unreadOf db' P c ∧
    db'.messages = db.messages ∧
    res.marked + unreceipted db' c P = unreceipted db c P := by
  unfold markAsRead at hok
  split at hok
  · -- explicit lastReadMessageId
    split at hok
    · simp at hok
    · split at hok
      · simp at hok
      · exact markAsReadCore_step P c d db _ db' res hinv hok
  · exact markAsReadCore_step P c d db none db' res hinv hok

theorem filter_eq_singleton_of_pred {l : List Message} {p : Message → Bool}
    (m : Message) (hm : m ∈ l) (hpm : p m = true)
    (huniq : ∀ x ∈ l, p x = true → x = m)
    (hnodup : l.Pairwise (fun m1 m2 => m1.id ≠ m2.id)) :
    l.filter p = [m] := by
  induction l with
  | nil => cases hm
  | cons a t ih =>
    have hpw := List.pairwise_cons.mp hnodup
    rcases List.mem_cons.mp hm with rfl | hmt
    · rw [List.filter_cons, if_pos hpm]
      have ht : t.filter p = [] := by
        rw [List.filter_eq_nil_iff]
        intro x hx hpx
        have hxm : x = m := huniq x (List.mem_cons_of_mem _ hx) hpx
        exact hpw.1 x hx (by rw [hxm])
      rw [ht]
    · have hpa : p a = false := by
        cases hpa' : p a
        · rfl
        · have ham : a = m := huniq a (List.mem_cons_self _ _) hpa'
          exact absurd (by rw [ham]) (hpw.1 m hmt)
      rw [List.filter_cons, if_neg (by simp [hpa])]
      exact ih hmt (fun x hx hpx => huniq x (List.mem_cons_of_mem _ hx) hpx) hpw.2

/-- Hard-deleting a message that was still unread for `P` leaves `P`'s
stored counter untouched while the actual unread count drops, raising the
drift by exactly one. -/
theorem deleteMessage_step (P : UserId) (c : Nat) (d : Nat) (db : DB)
    (messageId : Nat) (uid : UserId) (db' : DB) (res : DeleteMessageResult)
    (hinv : LedgerInv P c d db)
    (hok : deleteMessage db messageId uid = .ok (db', res))
    (m : Message) (hm : m ∈ db.messages) (hmid : m.id = messageId)
    (hmc : m.conversationId = c) (hms : m.senderId ≠ P)
    (hmr : hasReceipt db m.id P = false) :
    LedgerInv P c (d + 1) db' ∧ db'.participants = db.participants := by
  unfold deleteMessage at hok
  split at hok
  · simp at hok
  · split at hok
    · simp at hok
    · obtain ⟨h1, h2⟩ := Prod.mk.inj (Except.ok.inj hok)
      subst h1
      refine ⟨⟨hinv.partExists, ?_, ?_, hinv.rcptIds, ?_⟩, rfl⟩
      · intro mm hmm
        exact hinv.msgIds mm (List.mem_of_mem_filter hmm)
      · exact List.Pairwise.sublist (List.filter_sublist _) hinv.msgsNodupIds
      · -- balance with drift one higher
        have hunread : unreadOf { db with
            messages := db.messages.filter (fun mm => mm.id != messageId) } P c =
            unreadOf db P c := rfl
        have hUdb : unreceipted db c P =
            (db.messages.filter (fun mm =>
              (mm.senderId != P && !hasReceipt db mm.id P) &&
                mm.conversationId == c)).length := by
          unfold unreceipted msgsIn
          rw [List.filter_filter]
        have hUdbp : unreceipted { db with
            messages := db.messages.filter (fun mm => mm.id != messageId) } c P =
            (db.messages.filter (fun mm =>
              ((mm.senderId != P && !hasReceipt db mm.id P) &&
                mm.conversationId == c) && mm.id != messageId)).length := by
          show (((db.messages.filter (fun mm => mm.id != messageId)).filter
              (fun mm => mm.conversationId == c)).filter
              (fun mm => mm.senderId != P && !hasReceipt db mm.id P)).length = _
          rw [List.filter_filter, List.filter_filter]
        have hone : (db.messages.filter (fun mm =>
            ((mm.senderId != P && !hasReceipt db mm.id P) &&
              mm.conversationId == c) && !(mm.id != messageId))).length = 1 := by
          have hsingle : db.messages.filter (fun mm =>
              ((mm.senderId != P && !hasReceipt db mm.id P) &&
                mm.conversationId == c) && !(mm.id != messageId)) = [m] := by
            apply filter_eq_singleton_of_pred m hm
            · simp only [Bool.and_eq_true, Bool.not_eq_true', bne_eq_false_iff_eq,
                beq_iff_eq, bne_iff_ne, ne_eq, Bool.not_eq_true]
              exact ⟨⟨⟨by simpa using hms, by simp [hmr]⟩, hmc⟩, hmid⟩
            · intro x hx hpx
              simp only [Bool.and_eq_true, Bool.not_eq_true', bne_eq_false_iff_eq,
                beq_iff_eq] at hpx
              exact eq_of_pairwise_ne_id hinv.msgsNodupIds hx hm
                (by rw [hpx.2, hmid])
            · exact hinv.msgsNodupIds
          rw [hsingle]
          rfl
        have hsplit2 := length_filter_and_split db.messages
          (fun mm => (mm.senderId != P && !hasReceipt db mm.id P) &&
            mm.conversationId == c)
          (fun mm => mm.id != messageId)
        rw [hunread, hinv.balance]
        omega

/-! ## Operation traces for the unread-count invariant (C1) -/

inductive ChatOp where
  | send (a : CreateMessageArgs)
  | read (lastReadMessageId : Option Nat)
deriving DecidableEq, Repr

/-- Run a sequence of sends (into any conversation) and reads (by `P` on
conversation `C`), requiring every call to succeed. -/
def runOps (P : UserId) (C : Nat) : DB → List ChatOp → Except Err DB
  | db, [] => .ok db
  | db, .send a :: rest =>
    match createMessage db a with
    | .error e => .error e
    | .ok (db1, _) => runOps P C db1 rest
  | db, .read l :: rest =>
    match markAsRead db P C l with
    | .error e => .error e
    | .ok (db1, _) => runOps P C db1 rest

/-- Trace ops of the C1 claim: sends target conversation `C` and are
non-control. -/
def opOk (C : Nat) : ChatOp → Bool
  | .send a => a.conversationId == C && a.contentType != .SIGNAL_KEY_DISTRIBUTION
  | .read _ => true

theorem runOps_inv (P : UserId) (C : Nat) (d : Nat) (ops : List ChatOp) :
    ∀ (db db1 : DB), LedgerInv P C d db → (∀ op ∈ ops, opOk C op = true) →
      runOps P C db ops = .ok db1 → LedgerInv P C d db1 := by
  induction ops with
  | nil =>
    intro db db1 hinv _ hrun
    have h := Except.ok.inj hrun
    rw [← h]
    exact hinv
  | cons op rest ih =>
    intro db db1 hinv hops hrun
    cases op with
    | send a =>
      have hopok := hops (.send a) (List.mem_cons_self _ _)
      simp only [opOk, Bool.and_eq_true, beq_iff_eq, bne_iff_ne, ne_eq] at hopok
      obtain ⟨hC, hct⟩ := hopok
      cases hc : createMessage db a with
      | error e =>
        have hrun2 : (Except.error e : Except Err DB) = .ok db1 := by
          rw [← hrun]
          show _ = (match createMessage db a with
            | .error e => (.error e : Except Err DB)
            | .ok (db2, _) => runOps P C db2 rest)
          rw [hc]
        simp at hrun2
      | ok pr =>
        obtain ⟨db2, r⟩ := pr
        have hrun2 : runOps P C db2 rest = .ok db1 := by
          rw [← hrun]
          show _ = (match createMessage db a with
            | .error e => (.error e : Except Err DB)
            | .ok (db2, _) => runOps P C db2 rest)
          rw [hc]
        have hinv' : LedgerInv P a.conversationId d db := by rw [hC]; exact hinv
        have hstep := createMessage_step P d db a db2 r hinv' hct hc
        rw [hC] at hstep
        exact ih db2 db1 hstep (fun o ho => hops o (List.mem_cons_of_mem _ ho)) hrun2
    | read l =>
      cases hc : markAsRead db P C l with
      | error e =>
        have hrun2 : (Except.error e : Except Err DB) = .ok db1 := by
          rw [← hrun]
          show _ = (match markAsRead db P C l with
            | .error e => (.error e : Except Err DB)
            | .ok (db2, _) => runOps P C db2 rest)
          rw [hc]
        simp at hrun2
      | ok pr =>
        obtain ⟨db2, r⟩ := pr
        have hrun2 : runOps P C db2 rest = .ok db1 := by
          rw [← hrun]
          show _ = (match markAsRead db P C l with
            | .error e => (.error e : Except Err DB)
            | .ok (db2, _) => runOps P C db2 rest)
          rw [hc]
        have hstep := (markAsRead_step P C d db l db2 r hinv hc).1
        exact ih db2 db1 hstep (fun o ho => hops o (List.mem_cons_of_mem _ ho)) hrun2

/-- C1 (claim): starting from a fresh conversation, after any sequence of
successful non-control sends into `C` and reads by `P`, `P`'s stored
`unreadCount` equals (messages from others) minus (messages from others
receipted by `P`), and that difference is never negative. -/
theorem unreadCount_eq_sent_sub_read (P : UserId) (C : Nat) (db0 db1 : DB)
    (ops : List ChatOp)
    (hfresh : FreshLedger P C db0)
    (hops : ∀ op ∈ ops, opOk C op = true)
    (hrun : runOps P C db0 ops = .ok db1) :
    unreadOf db1 P C = (sentTo db1 C P : Int) - (readBy db1 C P : Int) ∧
    readBy db1 C P ≤ sentTo db1 C P := by
  have hinv := runOps_inv P C 0 ops db0 db1 hfresh.toInv hops hrun
  have hbal := hinv.balance
  have hpart := sentTo_eq_readBy_add_unreceipted db1 C P
  constructor
  · rw [hbal]
    omega
  · omega

/-- Trace for the C1 witness: one TEXT send by a, then a full read by b. -/
def c1ops : List ChatOp :=
  [.send { senderId := "a", conversationId := 1, content := some "m1" },
   .read none]

/-- The store after running `c1ops` from `msgDb`. -/
def c1db1 : DB :=
  { users := ["a", "b"],
    conversations := [{ id := 1, type := .DIRECT, participantAId := some "a",
                        participantBId := some "b", lastMessageId := some 2,
                        updatedAt := 1 }],
    participants := [{ conversationId := 1, userId := "a" },
                     { conversationId := 1, userId := "b" }],
    messages := [{ id := 2, conversationId := 1, senderId := "a", content := "m1",
                   contentType := .TEXT, createdAt := 1 }],
    receipts := [{ messageId := 2, userId := "b" }],
    nextId := 3, clock := 2 }

/-- Witness for C1 on a concrete trace: one send, one read, counter back in
sync. -/
theorem unreadCount_eq_sent_sub_read_witness :
    unreadOf c1db1 "b" 1 = (sentTo c1db1 1 "b" : Int) - (readBy c1db1 1 "b" : Int) ∧
    readBy c1db1 1 "b" ≤ sentTo c1db1 1 "b" :=
  unreadCount_eq_sent_sub_read "b" 1 msgDb c1db1 c1ops
    ⟨by decide, by decide, by decide,
     by intro m hm; simp [msgDb] at hm,
     List.Pairwise.nil,
     by intro r hr; simp [msgDb] at hr⟩
    (by decide) (by decide)

/-! ## C10: hard delete versus the unread counter -/

/-- C10 (amended): `deleteMessage` never touches participant rows, so
deleting a still-unread message leaves the recipient's stored counter one
above the actual count of remaining unread messages; and `markAsRead`
preserves that excess exactly — it never reconciles a nonnegative drift via
the zero clamp. -/
theorem deleteMessage_frame_and_drift :
    (∀ (db : DB) (mid : Nat) (uid : UserId) (db' : DB) (res : DeleteMessageResult),
      deleteMessage db mid uid = .ok (db', res) → db'.participants = db.participants) ∧
    (∀ (P : UserId) (c d : Nat) (db : DB) (mid : Nat) (uid : UserId) (db' : DB)
        (res : DeleteMessageResult) (m : Message),
      LedgerInv P c d db → deleteMessage db mid uid = .ok (db', res) →
      m ∈ db.messages → m.id = mid → m.conversationId = c → m.senderId ≠ P →
      hasReceipt db m.id P = false → LedgerInv P c (d + 1) db') ∧
    (∀ (P : UserId) (c d : Nat) (db : DB) (l : Option Nat) (db' : DB)
        (res : MarkAsReadResult),
      LedgerInv P c d db → markAsRead db P c l = .ok (db', res) →
      LedgerInv P c d db' ∧ res.newUnreadCount = unreadOf db' P c) := by
  refine ⟨?_, ?_, ?_⟩
  · intro db mid uid db' res h
    unfold deleteMessage at h
    split at h
    · simp at h
    · split at h
      · simp at h
      · have h1 := (Prod.mk.inj (Except.ok.inj h)).1
        rw [← h1]
  · intro P c d db mid uid db' res m hinv hok hm hmid hmc hms hmr
    exact (deleteMessage_step P c d db mid uid db' res hinv hok m hm hmid hmc hms hmr).1
  · intro P c d db l db' res hinv hok
    have h := markAsRead_step P c d db l db' res hinv hok
    exact ⟨h.1, h.2.1⟩

/-- The send whose message is then deleted in the C10 scenario. -/
def cexSendArgs : CreateMessageArgs :=
  { senderId := "a", conversationId := 1, content := some "hi" }

/-- Store after the send: b's counter is 1, message 2 unreceipted. -/
def cexDb1 : DB := (createMessageTx msgDb cexSendArgs).1

/-- Store after a hard-deletes message 2. -/
def cexDb2 : DB := { cexDb1 with messages := cexDb1.messages.filter (fun m => m.id != 2) }

/-- Witness for C10 (amended) at the concrete scenario: the delete leaves
b's participant rows — and hence the stored counter — untouched. -/
theorem deleteMessage_frame_and_drift_witness :
    cexDb2.participants = cexDb1.participants :=
  deleteMessage_frame_and_drift.1 cexDb1 2 "a" cexDb2
    { id := 2, conversationId := 1, participants := ["a", "b"] } (by decide)

/-- Counterexample to C10 as stated: after deleting the unread message, b's
stored unreadCount (1) exceeds the actual count of remaining unread
messages (0), and a later `markAsRead` does NOT reconcile it — it marks
nothing, changes nothing, and returns the stale counter; the zero clamp
never fires. -/
theorem deleteMessage_drift_not_reconciled :
    (createMessage msgDb cexSendArgs).map Prod.fst = .ok cexDb1 ∧
    unreadOf cexDb1 "b" 1 = 1 ∧
    (deleteMessage cexDb1 2 "a").map Prod.fst = .ok cexDb2 ∧
    unreadOf cexDb2 "b" 1 = 1 ∧
    unreceipted cexDb2 1 "b" = 0 ∧
    markAsRead cexDb2 "b" 1 none = .ok (cexDb2, { marked := 0, newUnreadCount := 1 }) := by
  refine ⟨?_, ?_, ?_, ?_, ?_, ?_⟩ <;> decide

/-! ## Friendship acceptance and conversation materialization
(src/src/services/friendService.js, `acceptFriendRequest`)

The concurrent-creation race on the conversation's unique pair constraint is
modelled by the boolean `raced`: when the canonical pair is free and `raced`
is set, a concurrent transaction is taken to commit the conversation (and
its participant rows) between our `findUnique` and `create`; our `create`
then hits P2002, the transaction rolls back, and the catch block re-queries
the conversation and re-marks the friendship ACCEPTED. -/

/-- JavaScript `[a, b].sort()` on two strings: the lexicographically smaller
first.  (Ids are ASCII cuids/uuids, where JS UTF-16 code-unit order and
Lean's code-point order agree.) -/
def sortPair (x y : UserId) : UserId × UserId :=
  if x ≤ y then (x, y) else (y, x)

structure AcceptResult where
  friendship : Friendship
  conversation : Option Conversation
deriving DecidableEq, Repr

/-- The friendship row after `update({status: 'ACCEPTED', acceptedAt: new Date()})`. -/
def acceptUpdatedFriendship (db : DB) (fr : Friendship) : Friendship :=
  { fr with status := .ACCEPTED, acceptedAt := some db.clock }

/-- The DIRECT conversation created for the canonically ordered pair. -/
def newPairConversation (db : DB) (fr : Friendship) : Conversation :=
  { id := db.nextId, type := .DIRECT,
    participantAId := some (sortPair fr.requesterId fr.addresseeId).1,
    participantBId := some (sortPair fr.requesterId fr.addresseeId).2,
    lastMessageId := none, updatedAt := db.clock }

/-- Embeds `acceptFriendRequest({friendshipId, userId})`. -/
def acceptFriendRequest (raced : Bool) (db : DB) (friendshipId : Nat)
    (userId : UserId) : Except Err (DB × AcceptResult) :=
  if userId == "" then .error .missingIds
  else
    match db.friendships.find? (fun f => f.id == friendshipId) with
    | none => .error .friendNotFound
    | some fr =>
      if fr.addresseeId != userId then .error .notAddressee
      else if fr.status != .PENDING then .error .notPending
      else
        match db.conversations.find? (fun cv =>
            cv.participantAId == some (sortPair fr.requesterId fr.addresseeId).1 &&
            cv.participantBId == some (sortPair fr.requesterId fr.addresseeId).2) with
        | some existingConv =>
          -- conversation already materialized: accept and return it
          .ok ({ db with
                   friendships := db.friendships.map (fun f =>
                     if f.id == friendshipId then acceptUpdatedFriendship db fr else f),
                   clock := db.clock + 1 },
               { friendship := acceptUpdatedFriendship db fr,
                 conversation := some existingConv })
        | none =>
          if raced then
            -- concurrent accept won the create; our transaction rolled back on
            -- P2002 and the catch re-queried the winner's row
            .ok ({ db with
                     friendships := db.friendships.map (fun f =>
                       if f.id == friendshipId then acceptUpdatedFriendship db fr else f),
                     conversations := db.conversations ++ [newPairConversation db fr],
                     participants := db.participants ++
                       [{ conversationId := db.nextId, userId := fr.requesterId },
                        { conversationId := db.nextId, userId := fr.addresseeId }],
                     nextId := db.nextId + 1, clock := db.clock + 1 },
                 { friendship := acceptUpdatedFriendship db fr,
                   conversation :=
                     (db.conversations ++ [newPairConversation db fr]).find? (fun cv =>
                       cv.participantAId ==
                         some (sortPair fr.requesterId fr.addresseeId).1 &&
                       cv.participantBId ==
                         some (sortPair fr.requesterId fr.addresseeId).2) })
          else
            .ok ({ db with
                     friendships := db.friendships.map (fun f =>
                       if f.id == friendshipId then acceptUpdatedFriendship db fr else f),
                     conversations := db.conversations ++ [newPairConversation db fr],
                     participants := db.participants ++
                       [{ conversationId := db.nextId, userId := fr.requesterId },
                        { conversationId := db.nextId, userId := fr.addresseeId }],
                     nextId := db.nextId + 1, clock := db.clock + 1 },
                 { friendship := acceptUpdatedFriendship db fr,
                   conversation := some (newPairConversation db fr) })

/-- Number of stored conversations joining the unordered pair. -/
def pairCount (db : DB) (x y : UserId) : Nat :=
  (db.conversations.filter (fun cv =>
    (cv.participantAId == some x && cv.participantBId == some y) ||
    (cv.participantAId == some y && cv.participantBId == some x))).length

theorem sortPair_le (x y : UserId) : (sortPair x y).1 ≤ (sortPair x y).2 := by
  unfold sortPair
  by_cases h : x ≤ y
  · rw [if_pos h]
    exact h
  · rw [if_neg h]
    exact le_of_not_le h

theorem sortPair_cases (x y : UserId) :
    sortPair x y = (x, y) ∨ sortPair x y = (y, x) := by
  unfold sortPair
  by_cases h : x ≤ y
  · rw [if_pos h]; exact Or.inl rfl
  · rw [if_neg h]; exact Or.inr rfl

/-- C3 (claim): a valid accept (addressee, PENDING) always succeeds and
returns the ACCEPTED friendship together with THE canonical DIRECT
conversation of the sorted pair — whether the pair's conversation already
existed, is created now, or was created concurrently (surfacing as a
unique-constraint error that the catch absorbs) — and afterwards exactly one
conversation joins the unordered pair. -/
theorem acceptFriendRequest_unique_conversation (raced : Bool) (db : DB)
    (friendshipId : Nat) (userId : UserId) (fr : Friendship)
    (hfind : db.friendships.find? (fun f => f.id == friendshipId) = some fr)
    (haddr : fr.addresseeId = userId)
    (hpend : fr.status = .PENDING)
    (huser : userId ≠ "")
    (hne : fr.requesterId ≠ fr.addresseeId)
    (hcanon : ∀ cv ∈ db.conversations,
      cv.participantAId.getD "" ≤ cv.participantBId.getD "")
    (hdirect : ∀ cv ∈ db.conversations,
      cv.participantAId.isSome = true → cv.type = .DIRECT)
    (huniq : pairCount db (sortPair fr.requesterId fr.addresseeId).1
      (sortPair fr.requesterId fr.addresseeId).2 ≤ 1) :
    ∃ (db' : DB) (res : AcceptResult) (conv : Conversation),
      acceptFriendRequest raced db friendshipId userId = .ok (db', res) ∧
      res.friendship.status = .ACCEPTED ∧
      res.conversation = some conv ∧
      conv.type = .DIRECT ∧
      conv.participantAId = some (sortPair fr.requesterId fr.addresseeId).1 ∧
      conv.participantBId = some (sortPair fr.requesterId fr.addresseeId).2 ∧
      conv ∈ db'.conversations ∧
      pairCount db' (sortPair fr.requesterId fr.addresseeId).1
        (sortPair fr.requesterId fr.addresseeId).2 = 1 := by
  have hgu : (userId == "") = false := by simp [huser]
  have haddr' : (fr.addresseeId != userId) = false := by simp [haddr]
  have hpend' : (fr.status != FriendshipStatus.PENDING) = false := by simp [hpend]
  have habne : (sortPair fr.requesterId fr.addresseeId).1 ≠
      (sortPair fr.requesterId fr.addresseeId).2 := by
    rcases sortPair_cases fr.requesterId fr.addresseeId with h | h <;> rw [h]
    · exact hne
    · exact fun hc => hne hc.symm
  cases hconv : db.conversations.find? (fun cv =>
      cv.participantAId == some (sortPair fr.requesterId fr.addresseeId).1 &&
      cv.participantBId == some (sortPair fr.requesterId fr.addresseeId).2) with
  | some existingConv =>
    have hmem := List.mem_of_find?_eq_some hconv
    have hpred := List.find?_some hconv
    simp only [Bool.and_eq_true, beq_iff_eq] at hpred
    refine ⟨{ db with
                friendships := db.friendships.map (fun f =>
                  if f.id == friendshipId then acceptUpdatedFriendship db fr else f),
                clock := db.clock + 1 },
            { friendship := acceptUpdatedFriendship db fr,
              conversation := some existingConv },
            existingConv, ?_, ?_, ?_, ?_, ?_, ?_, ?_, ?_⟩
    · unfold acceptFriendRequest
      simp only [hgu, Bool.false_eq_true, if_false, hfind, haddr', hpend', hconv,
        ite_false]
    · rfl
    · rfl
    · exact hdirect existingConv hmem (by rw [hpred.1]; rfl)
    · exact hpred.1
    · exact hpred.2
    · exact hmem
    · show pairCount db _ _ = 1
      have h1 : existingConv ∈ db.conversations.filter (fun cv =>
          (cv.participantAId == some (sortPair fr.requesterId fr.addresseeId).1 &&
            cv.participantBId == some (sortPair fr.requesterId fr.addresseeId).2) ||
          (cv.participantAId == some (sortPair fr.requesterId fr.addresseeId).2 &&
            cv.participantBId == some (sortPair fr.requesterId fr.addresseeId).1)) :=
        List.mem_filter.mpr ⟨hmem, by simp [hpred.1, hpred.2]⟩
      have h2 : 0 < pairCount db (sortPair fr.requesterId fr.addresseeId).1
          (sortPair fr.requesterId fr.addresseeId).2 := by
        unfold pairCount
        exact List.length_pos.mpr (List.ne_nil_of_mem h1)
      omega
  | none =>
    have hnone := List.find?_eq_none.mp hconv
    -- no conversation joins the pair yet, in either orientation
    have hfilterNil : db.conversations.filter (fun cv =>
        (cv.participantAId == some (sortPair fr.requesterId fr.addresseeId).1 &&
          cv.participantBId == some (sortPair fr.requesterId fr.addresseeId).2) ||
        (cv.participantAId == some (sortPair fr.requesterId fr.addresseeId).2 &&
          cv.participantBId == some (sortPair fr.requesterId fr.addresseeId).1)) = [] := by
      rw [List.filter_eq_nil_iff]
      intro cv hcv hp
      simp only [Bool.or_eq_true, Bool.and_eq_true, beq_iff_eq] at hp
      rcases hp with ⟨hA, hB⟩ | ⟨hA, hB⟩
      · exact hnone cv hcv (by simp [hA, hB])
      · have hle := hcanon cv hcv
        rw [hA, hB] at hle
        simp only [Option.getD_some] at hle
        exact habne (le_antisymm (sortPair_le _ _) hle)
    have hnewPred : ((newPairConversation db fr).participantAId ==
        some (sortPair fr.requesterId fr.addresseeId).1 &&
        (newPairConversation db fr).participantBId ==
        some (sortPair fr.requesterId fr.addresseeId).2) = true := by
      simp [newPairConversation]
    have hcount : pairCount { db with
        friendships := db.friendships.map (fun f =>
          if f.id == friendshipId then acceptUpdatedFriendship db fr else f),
        conversations := db.conversations ++ [newPairConversation db fr],
        participants := db.participants ++
          [{ conversationId := db.nextId, userId := fr.requesterId },
           { conversationId := db.nextId, userId := fr.addresseeId }],
        nextId := db.nextId + 1, clock := db.clock + 1 }
        (sortPair fr.requesterId fr.addresseeId).1
        (sortPair fr.requesterId fr.addresseeId).2 = 1 := by
      unfold pairCount
      show ((db.conversations ++ [newPairConversation db fr]).filter _).length = 1
      rw [List.filter_append, hfilterNil]
      simp [newPairConversation]
    cases raced with
    | false =>
      refine ⟨{ db with
                  friendships := db.friendships.map (fun f =>
                    if f.id == friendshipId then acceptUpdatedFriendship db fr else f),
                  conversations := db.conversations ++ [newPairConversation db fr],
                  participants := db.participants ++
                    [{ conversationId := db.nextId, userId := fr.requesterId },
                     { conversationId := db.nextId, userId := fr.addresseeId }],
                  nextId := db.nextId + 1, clock := db.clock + 1 },
              { friendship := acceptUpdatedFriendship db fr,
                conversation := some (newPairConversation db fr) },
              newPairConversation db fr, ?_, ?_, ?_, ?_, ?_, ?_, ?_, hcount⟩
      · unfold acceptFriendRequest
        simp only [hgu, Bool.false_eq_true, if_false, hfind, haddr', hpend', hconv,
          ite_false]
      · rfl
      · rfl
      · rfl
      · rfl
      · rfl
      · exact List.mem_append_right _ (List.mem_singleton.mpr rfl)
    | true =>
      have hfindNew : (db.conversations ++ [newPairConversation db fr]).find?
          (fun cv =>
            cv.participantAId == some (sortPair fr.requesterId fr.addresseeId).1 &&
            cv.participantBId == some (sortPair fr.requesterId fr.addresseeId).2) =
          some (newPairConversation db fr) := by
        rw [List.find?_append, hconv]
        simp [List.find?, hnewPred]
      refine ⟨{ db with
                  friendships := db.friendships.map (fun f =>
                    if f.id == friendshipId then acceptUpdatedFriendship db fr else f),
                  conversations := db.conversations ++ [newPairConversation db fr],
                  participants := db.participants ++
                    [{ conversationId := db.nextId, userId := fr.requesterId },
                     { conversationId := db.nextId, userId := fr.addresseeId }],
                  nextId := db.nextId + 1, clock := db.clock + 1 },
              { friendship := acceptUpdatedFriendship db fr,
                conversation :=
                  (db.conversations ++ [newPairConversation db fr]).find? (fun cv =>
                    cv.participantAId ==
                      some (sortPair fr.requesterId fr.addresseeId).1 &&
                    cv.participantBId ==
                      some (sortPair fr.requesterId fr.addresseeId).2) },
              newPairConversation db fr, ?_, ?_, ?_, ?_, ?_, ?_, ?_, hcount⟩
      · unfold acceptFriendRequest
        simp only [hgu, Bool.false_eq_true, if_false, hfind, haddr', hpend', hconv,
          ite_false, ite_true]
      · rfl
      · exact hfindNew
      · rfl
      · rfl
      · rfl
      · exact List.mem_append_right _ (List.mem_singleton.mpr rfl)

/-- Store for the C3 witness: u2 has a PENDING request towards u1 and no
conversation exists yet. -/
def acceptDb : DB :=
  { users := ["u1", "u2"],
    friendships := [{ id := 1, requesterId := "u2", addresseeId := "u1",
                      status := .PENDING }],
    nextId := 2, clock := 3 }

/-- Witness for C3 on the racing path: u1 accepts request 1 while a
concurrent accept creates the conversation; the call still succeeds with the
single canonical DIRECT conversation of the sorted pair (u1, u2). -/
theorem acceptFriendRequest_unique_conversation_witness :
    ∃ (db' : DB) (res : AcceptResult) (conv : Conversation),
      acceptFriendRequest true acceptDb 1 "u1" = .ok (db', res) ∧
      res.friendship.status = .ACCEPTED ∧
      res.conversation = some conv ∧
      conv.type = .DIRECT ∧
      conv.participantAId = some (sortPair "u2" "u1").1 ∧
      conv.participantBId = some (sortPair "u2" "u1").2 ∧
      conv ∈ db'.conversations ∧
      pairCount db' (sortPair "u2" "u1").1 (sortPair "u2" "u1").2 = 1 :=
  acceptFriendRequest_unique_conversation true acceptDb 1 "u1"
    { id := 1, requesterId := "u2", addresseeId := "u1", status := .PENDING }
    (by decide) (by decide) (by decide) (by decide) (by decide)
    (by decide) (by decide) (by decide)

/-! ## Pagination codec (src/unnamed/part_012, `utils/pagination.js`)

`Buffer.from(str, 'utf8')` / `buf.toString('utf8')` are embedded as a UTF-8
codec over byte lists (`List Nat`, each < 256); `buf.toString('base64')` /
`Buffer.from(b64, 'base64')` as a base64 codec.  Node's base64 decoder is
lenient: it skips every character outside the base64 alphabet (it accepts
both the standard and the url-safe alphabet), `=` included, and decodes the
surviving 6-bit values in groups of four, a trailing group of three values
yielding two bytes, of two yielding one byte, and a lone trailing value
nothing; invalid UTF-8 decodes to U+FFFD as in Node. -/

def utf8EncodeChar (ch : Char) : List Nat :=
  if ch.toNat < 0x80 then [ch.toNat]
  else if ch.toNat < 0x800 then
    [0xC0 + ch.toNat / 0x40, 0x80 + ch.toNat % 0x40]
  else if ch.toNat < 0x10000 then
    [0xE0 + ch.toNat / 0x1000, 0x80 + ch.toNat / 0x40 % 0x40, 0x80 + ch.toNat % 0x40]
  else
    [0xF0 + ch.toNat / 0x40000, 0x80 + ch.toNat / 0x1000 % 0x40,
     0x80 + ch.toNat / 0x40 % 0x40, 0x80 + ch.toNat % 0x40]

def utf8Encode : List Char → List Nat
  | [] => []
  | ch :: rest => utf8EncodeChar ch ++ utf8Encode rest

/-- U+FFFD, the replacement character Node substitutes for invalid UTF-8. -/
def replChar : Char := Char.ofNat 0xFFFD

/-- Decode one UTF-8 sequence from the head of the stream; invalid input
consumes the lead byte and yields U+FFFD (Node substitutes U+FFFD for
invalid sequences; its exact resynchronisation on garbage differs in
byte count, which no valid input reaches). -/
def utf8Step (b : Nat) (rest : List Nat) : Char × List Nat :=
  if b < 0x80 then (Char.ofNat b, rest)
  else if 0xC0 ≤ b ∧ b < 0xE0 then
    match rest with
    | b1 :: rest1 =>
      if (0x80 ≤ b1 ∧ b1 < 0xC0) ∧ 0x80 ≤ (b - 0xC0) * 0x40 + (b1 - 0x80) then
        (Char.ofNat ((b - 0xC0) * 0x40 + (b1 - 0x80)), rest1)
      else (replChar, b1 :: rest1)
    | [] => (replChar, [])
  else if 0xE0 ≤ b ∧ b < 0xF0 then
    match rest with
    | b1 :: b2 :: rest2 =>
      if ((0x80 ≤ b1 ∧ b1 < 0xC0) ∧ (0x80 ≤ b2 ∧ b2 < 0xC0)) ∧
          0x800 ≤ (b - 0xE0) * 0x1000 + (b1 - 0x80) * 0x40 + (b2 - 0x80) ∧
          ((b - 0xE0) * 0x1000 + (b1 - 0x80) * 0x40 + (b2 - 0x80) < 0xD800 ∨
           0xDFFF < (b - 0xE0) * 0x1000 + (b1 - 0x80) * 0x40 + (b2 - 0x80)) then
        (Char.ofNat ((b - 0xE0) * 0x1000 + (b1 - 0x80) * 0x40 + (b2 - 0x80)), rest2)
      else (replChar, b1 :: b2 :: rest2)
    | other => (replChar, other)
  else if 0xF0 ≤ b ∧ b < 0xF8 then
    match rest with
    | b1 :: b2 :: b3 :: rest3 =>
      if ((0x80 ≤ b1 ∧ b1 < 0xC0) ∧ (0x80 ≤ b2 ∧ b2 < 0xC0) ∧
            (0x80 ≤ b3 ∧ b3 < 0xC0)) ∧
          0x10000 ≤ (b - 0xF0) * 0x40000 + (b1 - 0x80) * 0x1000 +
            (b2 - 0x80) * 0x40 + (b3 - 0x80) ∧
          (b - 0xF0) * 0x40000 + (b1 - 0x80) * 0x1000 +
            (b2 - 0x80) * 0x40 + (b3 - 0x80) < 0x110000 then
        (Char.ofNat ((b - 0xF0) * 0x40000 + (b1 - 0x80) * 0x1000 +
          (b2 - 0x80) * 0x40 + (b3 - 0x80)), rest3)
      else (replChar, b1 :: b2 :: b3 :: rest3)
    | other => (replChar, other)
  else (replChar, rest)

theorem utf8Step_length (b : Nat) (rest : List Nat) :
    (utf8Step b rest).2.length ≤ rest.length := by
  unfold utf8Step
  repeat' split
  all_goals try simp
  all_goals omega

/-- Fuel-driven decode loop; `utf8Step` consumes at least the lead byte, so
fuel equal to the byte count always suffices. -/
def utf8DecodeF : Nat → List Nat → List Char
  | _, [] => []
  | fuel + 1, b :: rest => (utf8Step b rest).1 :: utf8DecodeF fuel (utf8Step b rest).2
  | 0, _ :: _ => []

def utf8Decode (l : List Nat) : List Char := utf8DecodeF l.length l

theorem utf8DecodeF_nil (fuel : Nat) : utf8DecodeF fuel [] = [] := by
  cases fuel <;> rfl

theorem utf8DecodeF_cons (fuel b : Nat) (rest : List Nat) :
    utf8DecodeF (fuel + 1) (b :: rest) =
      (utf8Step b rest).1 :: utf8DecodeF fuel (utf8Step b rest).2 := rfl

theorem utf8DecodeF_fuel : ∀ (fuel fuel' : Nat) (l : List Nat),
    l.length ≤ fuel → l.length ≤ fuel' →
    utf8DecodeF fuel l = utf8DecodeF fuel' l := by
  intro fuel
  induction fuel with
  | zero =>
    intro fuel' l h h'
    have hl : l = [] := List.eq_nil_of_length_eq_zero (Nat.le_zero.mp h)
    subst hl
    rw [utf8DecodeF_nil, utf8DecodeF_nil]
  | succ n ih =>
    intro fuel' l h h'
    match l with
    | [] => rw [utf8DecodeF_nil, utf8DecodeF_nil]
    | b :: rest =>
      match fuel' with
      | 0 => simp at h'
      | m + 1 =>
        rw [utf8DecodeF_cons, utf8DecodeF_cons]
        have hl := utf8Step_length b rest
        simp only [List.length_cons] at h h'
        rw [ih m (utf8Step b rest).2 (by omega) (by omega)]

theorem char_toNat_cases (c : Char) :
    c.toNat < 0xD800 ∨ (0xDFFF < c.toNat ∧ c.toNat < 0x110000) := by
  rcases c.valid with h | h
  · exact Or.inl h
  · exact Or.inr h

theorem utf8EncodeChar_lt (ch : Char) : ∀ b ∈ utf8EncodeChar ch, b < 256 := by
  have hv := char_toNat_cases ch
  unfold utf8EncodeChar
  intro b hb
  by_cases h1 : ch.toNat < 0x80
  · rw [if_pos h1] at hb
    simp only [List.mem_singleton] at hb
    omega
  · rw [if_neg h1] at hb
    by_cases h2 : ch.toNat < 0x800
    · rw [if_pos h2] at hb
      simp only [List.mem_cons, List.not_mem_nil, or_false] at hb
      rcases hb with rfl | rfl <;> omega
    · rw [if_neg h2] at hb
      by_cases h3 : ch.toNat < 0x10000
      · rw [if_pos h3] at hb
        simp only [List.mem_cons, List.not_mem_nil, or_false] at hb
        rcases hb with rfl | rfl | rfl <;> omega
      · rw [if_neg h3] at hb
        simp only [List.mem_cons, List.not_mem_nil, or_false] at hb
        rcases hb with rfl | rfl | rfl | rfl <;> omega

theorem utf8Encode_lt (cs : List Char) : ∀ b ∈ utf8Encode cs, b < 256 := by
  induction cs with
  | nil => intro b hb; cases hb
  | cons ch rest ih =>
    intro b hb
    rcases List.mem_append.mp hb with hb | hb
    · exact utf8EncodeChar_lt ch b hb
    · exact ih b hb

/-- Decoding picks each encoded character back off the front. -/
theorem utf8Decode_encodeChar (ch : Char) (rest : List Nat) :
    utf8Decode (utf8EncodeChar ch ++ rest) = ch :: utf8Decode rest := by
  have hv := char_toNat_cases ch
  have hofNat := Char.ofNat_toNat ch
  unfold utf8EncodeChar
  by_cases h1 : ch.toNat < 0x80
  · rw [if_pos h1]
    show utf8DecodeF (rest.length + 1) (ch.toNat :: rest) = ch :: utf8Decode rest
    rw [utf8DecodeF_cons]
    have hstep : utf8Step ch.toNat rest = (ch, rest) := by
      unfold utf8Step
      rw [if_pos h1, hofNat]
    rw [hstep]
    rfl
  · rw [if_neg h1]
    by_cases h2 : ch.toNat < 0x800
    · rw [if_pos h2]
      show utf8DecodeF (rest.length + 1 + 1)
        ((0xC0 + ch.toNat / 0x40) :: (0x80 + ch.toNat % 0x40) :: rest) =
        ch :: utf8Decode rest
      rw [utf8DecodeF_cons]
      have hstep : utf8Step (0xC0 + ch.toNat / 0x40)
          ((0x80 + ch.toNat % 0x40) :: rest) = (ch, rest) := by
        unfold utf8Step
        rw [if_neg (by omega), if_pos (by omega)]
        split
        next b1 rest1 heq =>
          injection heq with hb1 hr1
          subst hb1
          subst hr1
          rw [if_pos (by constructor <;> omega)]
          have harith : (0xC0 + ch.toNat / 0x40 - 0xC0) * 0x40 +
              (0x80 + ch.toNat % 0x40 - 0x80) = ch.toNat := by omega
          rw [harith, hofNat]
        next heq => simp at heq
      rw [hstep]
      show ch :: utf8DecodeF (rest.length + 1) rest =
        ch :: utf8DecodeF rest.length rest
      rw [utf8DecodeF_fuel (rest.length + 1) rest.length rest (by omega) (by omega)]
    · rw [if_neg h2]
      by_cases h3 : ch.toNat < 0x10000
      · rw [if_pos h3]
        show utf8DecodeF (rest.length + 1 + 1 + 1)
          ((0xE0 + ch.toNat / 0x1000) :: (0x80 + ch.toNat / 0x40 % 0x40) ::
            (0x80 + ch.toNat % 0x40) :: rest) = ch :: utf8Decode rest
        rw [utf8DecodeF_cons]
        have hstep : utf8Step (0xE0 + ch.toNat / 0x1000)
            ((0x80 + ch.toNat / 0x40 % 0x40) :: (0x80 + ch.toNat % 0x40) :: rest) =
            (ch, rest) := by
          unfold utf8Step
          rw [if_neg (by omega), if_neg (by omega), if_pos (by omega)]
          split
          next b1 b2 rest2 heq =>
            injection heq with hb1 hrest
            injection hrest with hb2 hr2
            subst hb1
            subst hb2
            subst hr2
            rw [if_pos (by refine ⟨⟨⟨?_, ?_⟩, ?_, ?_⟩, ?_, ?_⟩ <;> omega)]
            have harith : (0xE0 + ch.toNat / 0x1000 - 0xE0) * 0x1000 +
                (0x80 + ch.toNat / 0x40 % 0x40 - 0x80) * 0x40 +
                (0x80 + ch.toNat % 0x40 - 0x80) = ch.toNat := by omega
            rw [harith, hofNat]
          next h =>
            exact absurd rfl (h _ _ _)
        rw [hstep]
        show ch :: utf8DecodeF (rest.length + 1 + 1) rest =
          ch :: utf8DecodeF rest.length rest
        rw [utf8DecodeF_fuel (rest.length + 1 + 1) rest.length rest
          (by omega) (by omega)]
      · rw [if_neg h3]
        show utf8DecodeF (rest.length + 1 + 1 + 1 + 1)
          ((0xF0 + ch.toNat / 0x40000) :: (0x80 + ch.toNat / 0x1000 % 0x40) ::
            (0x80 + ch.toNat / 0x40 % 0x40) :: (0x80 + ch.toNat % 0x40) :: rest) =
          ch :: utf8Decode rest
        rw [utf8DecodeF_cons]
        have hstep : utf8Step (0xF0 + ch.toNat / 0x40000)
            ((0x80 + ch.toNat / 0x1000 % 0x40) :: (0x80 + ch.toNat / 0x40 % 0x40) ::
              (0x80 + ch.toNat % 0x40) :: rest) = (ch, rest) := by
          unfold utf8Step
          rw [if_neg (by omega), if_neg (by omega), if_neg (by omega),
            if_pos (by omega)]
          split
          next b1 b2 b3 rest3 heq =>
            injection heq with hb1 hrest
            injection hrest with hb2 hrest2
            injection hrest2 with hb3 hr3
            subst hb1
            subst hb2
            subst hb3
            subst hr3
            rw [if_pos (by
              refine ⟨⟨⟨?_, ?_⟩, ⟨?_, ?_⟩, ?_, ?_⟩, ?_, ?_⟩ <;> omega)]
            have harith : (0xF0 + ch.toNat / 0x40000 - 0xF0) * 0x40000 +
                (0x80 + ch.toNat / 0x1000 % 0x40 - 0x80) * 0x1000 +
                (0x80 + ch.toNat / 0x40 % 0x40 - 0x80) * 0x40 +
                (0x80 + ch.toNat % 0x40 - 0x80) = ch.toNat := by omega
            rw [harith, hofNat]
          next h =>
            exact absurd rfl (h _ _ _ _)
        rw [hstep]
        show ch :: utf8DecodeF (rest.length + 1 + 1 + 1) rest =
          ch :: utf8DecodeF rest.length rest
        rw [utf8DecodeF_fuel (rest.length + 1 + 1 + 1) rest.length rest
          (by omega) (by omega)]

theorem utf8Decode_encode (cs : List Char) :
    utf8Decode (utf8Encode cs) = cs := by
  induction cs with
  | nil => rfl
  | cons ch rest ih =>
    show utf8Decode (utf8EncodeChar ch ++ utf8Encode rest) = _
    rw [utf8Decode_encodeChar, ih]

/-! ### base64 -/

def b64Alphabet : List Char :=
  "ABCDEFGHIJKLMNOPQRSTUVWXYZabcdefghijklmnopqrstuvwxyz0123456789+/".toList

def b64Char (n : Nat) : Char := b64Alphabet.getD n 'A'

/-- Node's decode table: the standard alphabet plus the url-safe `-` and `_`. -/
def b64Inv (c : Char) : Option Nat :=
  if c = '-' then some 62
  else if c = '_' then some 63
  else b64Alphabet.findIdx? (fun x => x == c)

def b64EncodeBytes : List Nat → List Char
  | [] => []
  | [b0] => [b64Char (b0 / 4), b64Char (b0 % 4 * 16), '=', '=']
  | [b0, b1] =>
    [b64Char (b0 / 4), b64Char (b0 % 4 * 16 + b1 / 16), b64Char (b1 % 16 * 4), '=']
  | b0 :: b1 :: b2 :: rest =>
    b64Char (b0 / 4) :: b64Char (b0 % 4 * 16 + b1 / 16) ::
      b64Char (b1 % 16 * 4 + b2 / 64) :: b64Char (b2 % 64) :: b64EncodeBytes rest

def b64DecodeVals : List Nat → List Nat
  | v0 :: v1 :: v2 :: v3 :: rest =>
    (v0 * 4 + v1 / 16) :: (v1 % 16 * 16 + v2 / 4) :: (v2 % 4 * 64 + v3) ::
      b64DecodeVals rest
  | [v0, v1, v2] => [v0 * 4 + v1 / 16, v1 % 16 * 16 + v2 / 4]
  | [v0, v1] => [v0 * 4 + v1 / 16]
  | _ => []

/-- `Buffer.from(b64, 'base64')`: skip non-alphabet characters, decode. -/
def b64DecodeLenient (cs : List Char) : List Nat :=
  b64DecodeVals (cs.filterMap b64Inv)

def swapPlusSlashToUrl (c : Char) : Char :=
  if c = '+' then '-' else if c = '/' then '_' else c

def swapUrlToPlusSlash (c : Char) : Char :=
  if c = '-' then '+' else if c = '_' then '/' else c

def stripTrailingEq (cs : List Char) : List Char :=
  (cs.reverse.dropWhile (fun c => c == '=')).reverse

/-- `Buffer.from(str, 'utf8').toString('base64')` with `+`→`-`, `/`→`_` and
the trailing `=` padding stripped. -/
def base64urlEncode (str : String) : String :=
  String.mk (stripTrailingEq
    ((b64EncodeBytes (utf8Encode str.toList)).map swapPlusSlashToUrl))

/-- `base64urlDecode`: `-`→`+`, `_`→`/`; a token of length ≡ 1 (mod 4) is
rejected; otherwise the `=` padding the source appends is skipped by Node's
lenient decoder anyway, so it is not materialised here.  The source's
`typeof token !== 'string'` guard is outside the string-input model. -/
def base64urlDecode (token : String) : Option String :=
  if token.length % 4 == 1 then none
  else some (String.mk (utf8Decode
    (b64DecodeLenient (token.toList.map swapUrlToPlusSlash))))

theorem b64Inv_b64Char : ∀ n, n < 64 → b64Inv (b64Char n) = some n := by decide

theorem b64Char_beq_eq_false : ∀ (n : Nat), (b64Char n == '=') = false := by
  intro n
  rcases Nat.lt_or_ge n 64 with h | h
  · revert h
    revert n
    decide
  · unfold b64Char
    rw [List.getD_eq_default]
    · decide
    · exact le_trans (by decide) h

theorem b64Char_ne_dash : ∀ (n : Nat), b64Char n ≠ '-' ∧ b64Char n ≠ '_' := by
  intro n
  rcases Nat.lt_or_ge n 64 with h | h
  · revert h
    revert n
    decide
  · unfold b64Char
    rw [List.getD_eq_default]
    · decide
    · exact le_trans (by decide) h

theorem mem_stripTrailingEq {c : Char} {l : List Char}
    (h : c ∈ stripTrailingEq l) : c ∈ l := by
  unfold stripTrailingEq at h
  rw [List.mem_reverse] at h
  have := (List.dropWhile_sublist (fun c => c == '=')).subset h
  rwa [List.mem_reverse] at this

theorem stripTrailingEq_decomp (l : List Char) :
    ∃ k, l = stripTrailingEq l ++ List.replicate k '=' := by
  refine ⟨(l.reverse.takeWhile (fun c => c == '=')).length, ?_⟩
  have hsplit := List.takeWhile_append_dropWhile (p := fun c => c == '=') (l := l.reverse)
  have htake : l.reverse.takeWhile (fun c => c == '=') =
      List.replicate (l.reverse.takeWhile (fun c => c == '=')).length '=' := by
    apply List.eq_replicate_of_mem
    intro b hb
    have := List.mem_takeWhile_imp hb
    exact eq_of_beq this
  calc l = l.reverse.reverse := (List.reverse_reverse l).symm
    _ = (l.reverse.takeWhile (fun c => c == '=') ++
          l.reverse.dropWhile (fun c => c == '=')).reverse := by rw [hsplit]
    _ = stripTrailingEq l ++ (l.reverse.takeWhile (fun c => c == '=')).reverse := by
          rw [List.reverse_append]; rfl
    _ = _ := by
          have hrev : (l.reverse.takeWhile (fun c => c == '=')).reverse =
              List.replicate (l.reverse.takeWhile (fun c => c == '=')).length '=' := by
            conv_lhs => rw [htake]
            rw [List.reverse_replicate]
          rw [hrev]

theorem filterMap_b64Inv_replicateEq (k : Nat) :
    (List.replicate k '=').filterMap b64Inv = [] := by
  induction k with
  | zero => rfl
  | succ n ih =>
    rw [List.replicate_succ, List.filterMap_cons]
    have : b64Inv '=' = none := by decide
    rw [this, ih]

theorem filterMap_b64Inv_stripTrailingEq (l : List Char) :
    l.filterMap b64Inv = (stripTrailingEq l).filterMap b64Inv := by
  obtain ⟨k, hk⟩ := stripTrailingEq_decomp l
  conv_lhs => rw [hk]
  rw [List.filterMap_append, filterMap_b64Inv_replicateEq, List.append_nil]

theorem stripTrailingEq_map_swap (l : List Char) :
    stripTrailingEq (l.map swapPlusSlashToUrl) =
      (stripTrailingEq l).map swapPlusSlashToUrl := by
  have hpf : ((fun c => c == '=') ∘ swapPlusSlashToUrl) = (fun c => c == '=') := by
    funext c
    show (swapPlusSlashToUrl c == '=') = (c == '=')
    unfold swapPlusSlashToUrl
    split_ifs with h1 h2
    · subst h1; decide
    · subst h2; decide
    · rfl
  unfold stripTrailingEq
  rw [← List.map_reverse, List.dropWhile_map, hpf, List.map_reverse]

theorem b64EncodeBytes_chars : ∀ (l : List Nat) (c : Char), c ∈ b64EncodeBytes l →
    (∃ n, c = b64Char n) ∨ c = '='
  | [], _, h => by cases h
  | [b0], c, h => by
    simp only [b64EncodeBytes, List.mem_cons, List.not_mem_nil, or_false] at h
    rcases h with rfl | rfl | rfl | rfl
    · exact Or.inl ⟨_, rfl⟩
    · exact Or.inl ⟨_, rfl⟩
    · exact Or.inr rfl
    · exact Or.inr rfl
  | [b0, b1], c, h => by
    simp only [b64EncodeBytes, List.mem_cons, List.not_mem_nil, or_false] at h
    rcases h with rfl | rfl | rfl | rfl
    · exact Or.inl ⟨_, rfl⟩
    · exact Or.inl ⟨_, rfl⟩
    · exact Or.inl ⟨_, rfl⟩
    · exact Or.inr rfl
  | b0 :: b1 :: b2 :: rest, c, h => by
    simp only [b64EncodeBytes, List.mem_cons] at h
    rcases h with rfl | rfl | rfl | rfl | h
    · exact Or.inl ⟨_, rfl⟩
    · exact Or.inl ⟨_, rfl⟩
    · exact Or.inl ⟨_, rfl⟩
    · exact Or.inl ⟨_, rfl⟩
    · exact b64EncodeBytes_chars rest c h

theorem swap_url_roundtrip (c : Char) (h1 : c ≠ '-') (h2 : c ≠ '_') :
    swapUrlToPlusSlash (swapPlusSlashToUrl c) = c := by
  unfold swapPlusSlashToUrl swapUrlToPlusSlash
  split_ifs with ha hb <;> simp_all

theorem map_swap_roundtrip_enc (l : List Nat) :
    ((stripTrailingEq (b64EncodeBytes l)).map swapPlusSlashToUrl).map
      swapUrlToPlusSlash = stripTrailingEq (b64EncodeBytes l) := by
  rw [List.map_map]
  have hcong : ∀ c ∈ stripTrailingEq (b64EncodeBytes l),
      (swapUrlToPlusSlash ∘ swapPlusSlashToUrl) c = id c := by
    intro c hc
    have hc' := mem_stripTrailingEq hc
    rcases b64EncodeBytes_chars l c hc' with ⟨n, rfl⟩ | rfl
    · have hd := b64Char_ne_dash n
      exact swap_url_roundtrip _ hd.1 hd.2
    · decide
  rw [List.map_congr_left hcong, List.map_id]

theorem b64DecodeVals_cons4 (v0 v1 v2 v3 : Nat) (rest : List Nat) :
    b64DecodeVals (v0 :: v1 :: v2 :: v3 :: rest) =
      (v0 * 4 + v1 / 16) :: (v1 % 16 * 16 + v2 / 4) :: (v2 % 4 * 64 + v3) ::
        b64DecodeVals rest := rfl

theorem b64_vals : ∀ (l : List Nat), (∀ b ∈ l, b < 256) →
    b64DecodeVals ((b64EncodeBytes l).filterMap b64Inv) = l
  | [], _ => rfl
  | [b0], h => by
    have hb0 : b0 < 256 := h b0 (by simp)
    have he : b64Inv '=' = none := by decide
    show b64DecodeVals ((b64EncodeBytes [b0]).filterMap b64Inv) = [b0]
    rw [show b64EncodeBytes [b0] =
      [b64Char (b0 / 4), b64Char (b0 % 4 * 16), '=', '='] from rfl]
    simp only [List.filterMap_cons, he,
      b64Inv_b64Char (b0 / 4) (by omega), b64Inv_b64Char (b0 % 4 * 16) (by omega),
      List.filterMap_nil]
    show [b0 / 4 * 4 + b0 % 4 * 16 / 16] = [b0]
    simp only [List.cons.injEq, and_true]
    omega
  | [b0, b1], h => by
    have hb0 : b0 < 256 := h b0 (by simp)
    have hb1 : b1 < 256 := h b1 (by simp)
    have he : b64Inv '=' = none := by decide
    rw [show b64EncodeBytes [b0, b1] =
      [b64Char (b0 / 4), b64Char (b0 % 4 * 16 + b1 / 16), b64Char (b1 % 16 * 4), '=']
      from rfl]
    simp only [List.filterMap_cons, he,
      b64Inv_b64Char (b0 / 4) (by omega),
      b64Inv_b64Char (b0 % 4 * 16 + b1 / 16) (by omega),
      b64Inv_b64Char (b1 % 16 * 4) (by omega),
      List.filterMap_nil]
    show [b0 / 4 * 4 + (b0 % 4 * 16 + b1 / 16) / 16,
      (b0 % 4 * 16 + b1 / 16) % 16 * 16 + b1 % 16 * 4 / 4] = [b0, b1]
    simp only [List.cons.injEq, and_true]
    constructor
    · omega
    · omega
  | b0 :: b1 :: b2 :: rest, h => by
    have hb0 : b0 < 256 := h b0 (by simp)
    have hb1 : b1 < 256 := h b1 (by simp)
    have hb2 : b2 < 256 := h b2 (by simp)
    have ih := b64_vals rest (fun b hb => h b (by simp [hb]))
    rw [show b64EncodeBytes (b0 :: b1 :: b2 :: rest) =
      b64Char (b0 / 4) :: b64Char (b0 % 4 * 16 + b1 / 16) ::
        b64Char (b1 % 16 * 4 + b2 / 64) :: b64Char (b2 % 64) ::
        b64EncodeBytes rest from rfl]
    simp only [List.filterMap_cons,
      b64Inv_b64Char (b0 / 4) (by omega),
      b64Inv_b64Char (b0 % 4 * 16 + b1 / 16) (by omega),
      b64Inv_b64Char (b1 % 16 * 4 + b2 / 64) (by omega),
      b64Inv_b64Char (b2 % 64) (by omega)]
    rw [b64DecodeVals_cons4, ih]
    simp only [List.cons.injEq]
    refine ⟨by omega, by omega, by omega, trivial⟩

theorem b64EncodeBytes_cons_ne_nil (r : Nat) (rs : List Nat) :
    ∃ t, b64EncodeBytes (r :: rs) = b64Char (r / 4) :: t := by
  match rs with
  | [] => exact ⟨_, rfl⟩
  | [x] => exact ⟨_, rfl⟩
  | x :: y :: t => exact ⟨_, rfl⟩

theorem stripEnc_len : ∀ l : List Nat,
    (stripTrailingEq (b64EncodeBytes l)).length = (l.length * 4 + 2) / 3
  | [] => by decide
  | [b0] => by
    rw [show b64EncodeBytes [b0] =
      [b64Char (b0 / 4), b64Char (b0 % 4 * 16), '=', '='] from rfl]
    unfold stripTrailingEq
    simp [List.dropWhile_cons, b64Char_beq_eq_false]
  | [b0, b1] => by
    rw [show b64EncodeBytes [b0, b1] =
      [b64Char (b0 / 4), b64Char (b0 % 4 * 16 + b1 / 16), b64Char (b1 % 16 * 4), '=']
      from rfl]
    unfold stripTrailingEq
    simp [List.dropWhile_cons, b64Char_beq_eq_false]
  | b0 :: b1 :: b2 :: rest => by
    rw [show b64EncodeBytes (b0 :: b1 :: b2 :: rest) =
      [b64Char (b0 / 4), b64Char (b0 % 4 * 16 + b1 / 16),
        b64Char (b1 % 16 * 4 + b2 / 64), b64Char (b2 % 64)] ++
        b64EncodeBytes rest from rfl]
    match rest with
    | [] =>
      unfold stripTrailingEq
      simp [b64EncodeBytes, List.dropWhile_cons, b64Char_beq_eq_false]
    | r :: rs =>
      have ih := stripEnc_len (r :: rs)
      have hne : ¬(List.dropWhile (fun c => c == '=')
          (b64EncodeBytes (r :: rs)).reverse).isEmpty = true := by
        intro hemp
        have hstrip : stripTrailingEq (b64EncodeBytes (r :: rs)) = [] := by
          unfold stripTrailingEq
          rw [List.isEmpty_iff] at hemp
          rw [hemp]
          rfl
        obtain ⟨k, hk⟩ := stripTrailingEq_decomp (b64EncodeBytes (r :: rs))
        rw [hstrip, List.nil_append] at hk
        obtain ⟨t, ht⟩ := b64EncodeBytes_cons_ne_nil r rs
        have hmem : b64Char (r / 4) ∈ b64EncodeBytes (r :: rs) := by
          rw [ht]; simp
        rw [hk] at hmem
        have := List.eq_of_mem_replicate hmem
        have hne' := b64Char_beq_eq_false (r / 4)
        rw [this] at hne'
        simp at hne'
      unfold stripTrailingEq
      rw [List.reverse_append, List.dropWhile_append, if_neg hne]
      rw [List.reverse_append, List.length_append]
      have hlen : (List.dropWhile (fun c => c == '=')
          (b64EncodeBytes (r :: rs)).reverse).reverse.length =
          ((r :: rs).length * 4 + 2) / 3 := ih
      rw [hlen]
      simp only [List.length_cons, List.length_reverse, List.length_nil]
      omega

theorem base64urlDecode_encode (s : String) :
    base64urlDecode (base64urlEncode s) = some s := by
  unfold base64urlEncode base64urlDecode
  have hcomm := stripTrailingEq_map_swap (b64EncodeBytes (utf8Encode s.toList))
  have hlen : (String.mk (stripTrailingEq
      ((b64EncodeBytes (utf8Encode s.toList)).map swapPlusSlashToUrl))).length =
      (stripTrailingEq (b64EncodeBytes (utf8Encode s.toList))).length := by
    show (stripTrailingEq
      ((b64EncodeBytes (utf8Encode s.toList)).map swapPlusSlashToUrl)).length = _
    rw [hcomm, List.length_map]
  have hmod : ¬((String.mk (stripTrailingEq
      ((b64EncodeBytes (utf8Encode s.toList)).map swapPlusSlashToUrl))).length % 4
        == 1) = true := by
    simp only [beq_iff_eq]
    rw [hlen, stripEnc_len]
    omega
  rw [if_neg hmod]
  have hbytes : b64DecodeLenient ((String.mk (stripTrailingEq
      ((b64EncodeBytes (utf8Encode s.toList)).map swapPlusSlashToUrl))).toList.map
        swapUrlToPlusSlash) = utf8Encode s.toList := by
    show b64DecodeLenient ((stripTrailingEq
      ((b64EncodeBytes (utf8Encode s.toList)).map swapPlusSlashToUrl)).map
        swapUrlToPlusSlash) = _
    rw [hcomm, map_swap_roundtrip_enc]
    unfold b64DecodeLenient
    rw [← filterMap_b64Inv_stripTrailingEq]
    exact b64_vals _ (utf8Encode_lt s.toList)
  rw [hbytes, utf8Decode_encode]
  rfl

/-! ### JSON (`JSON.parse` / `JSON.stringify`)

`JSON.parse` is a fuel-indexed recursive-descent parser over the JSON
grammar; the fuel only bounds nesting and member count and is chosen at the
call site as input length + 1, which always suffices.  JS strings containing
lone UTF-16 surrogates (reachable only through `\u` escapes of malformed
pairs) have no `Char` counterpart; the model substitutes U+FFFD, which never
changes whether a token parses.  `JSON.stringify` appears only through
`stringifyCursor`, the one object shape the source serialises. -/

inductive JVal where
  | null
  | bool (b : Bool)
  | num (raw : String)
  | str (s : String)
  | arr (elems : List JVal)
  | obj (fields : List (String × JVal))

def isJsonWs (c : Char) : Bool :=
  c == ' ' || c == '\t' || c == '\n' || c == '\r'

def skipWs : List Char → List Char
  | [] => []
  | c :: rest => if isJsonWs c then skipWs rest else c :: rest

def isDigit (c : Char) : Bool := '0' ≤ c && c ≤ '9'

def hexVal (c : Char) : Option Nat :=
  if '0' ≤ c ∧ c ≤ '9' then some (c.toNat - 48)
  else if 'a' ≤ c ∧ c ≤ 'f' then some (c.toNat - 87)
  else if 'A' ≤ c ∧ c ≤ 'F' then some (c.toNat - 55)
  else none

/-- One `\\u` escape, pairing a high surrogate with an immediately
following low-surrogate escape as `JSON.parse` does; lone surrogates (which
`Char` cannot carry) become U+FFFD.  Returns the decoded characters and the
rest of the input. -/
def parseUnicodeEscapePair (rest1 : List Char) : Option (List Char × List Char) :=
  match rest1 with
  | h1 :: h2 :: h3 :: h4 :: rest2 =>
    match hexVal h1, hexVal h2, hexVal h3, hexVal h4 with
    | some v1, some v2, some v3, some v4 =>
      if 0xD800 ≤ v1 * 4096 + v2 * 256 + v3 * 16 + v4 ∧
          v1 * 4096 + v2 * 256 + v3 * 16 + v4 < 0xDC00 then
        match rest2 with
        | '\\' :: 'u' :: k1 :: k2 :: k3 :: k4 :: rest3 =>
          match hexVal k1, hexVal k2, hexVal k3, hexVal k4 with
          | some w1, some w2, some w3, some w4 =>
            if 0xDC00 ≤ w1 * 4096 + w2 * 256 + w3 * 16 + w4 ∧
                w1 * 4096 + w2 * 256 + w3 * 16 + w4 < 0xE000 then
              some ([Char.ofNat (0x10000 +
                (v1 * 4096 + v2 * 256 + v3 * 16 + v4 - 0xD800) * 0x400 +
                (w1 * 4096 + w2 * 256 + w3 * 16 + w4 - 0xDC00))], rest3)
            else if 0xD800 ≤ w1 * 4096 + w2 * 256 + w3 * 16 + w4 ∧
                w1 * 4096 + w2 * 256 + w3 * 16 + w4 < 0xDC00 then
              some ([replChar, replChar], rest3)
            else
              some ([replChar, Char.ofNat (w1 * 4096 + w2 * 256 + w3 * 16 + w4)],
                rest3)
          | _, _, _, _ => none
        | _ => some ([replChar], rest2)
      else if 0xDC00 ≤ v1 * 4096 + v2 * 256 + v3 * 16 + v4 ∧
          v1 * 4096 + v2 * 256 + v3 * 16 + v4 < 0xE000 then
        some ([replChar], rest2)
      else
        some ([Char.ofNat (v1 * 4096 + v2 * 256 + v3 * 16 + v4)], rest2)
    | _, _, _, _ => none
  | _ => none

/-- JSON string-body scanner; every step consumes at least one character,
so fuel equal to the input length always suffices. -/
def parseStringBodyF : Nat → List Char → Option (List Char × List Char)
  | 0, _ => none
  | _ + 1, [] => none
  | fuel + 1, c :: rest =>
    if c == '"' then some ([], rest)
    else if c == '\\' then
      match rest with
      | [] => none
      | e :: rest1 =>
        if e == '"' then
          (parseStringBodyF fuel rest1).map (fun p => ('"' :: p.1, p.2))
        else if e == '\\' then
          (parseStringBodyF fuel rest1).map (fun p => ('\\' :: p.1, p.2))
        else if e == '/' then
          (parseStringBodyF fuel rest1).map (fun p => ('/' :: p.1, p.2))
        else if e == 'b' then
          (parseStringBodyF fuel rest1).map (fun p => ('\x08' :: p.1, p.2))
        else if e == 'f' then
          (parseStringBodyF fuel rest1).map (fun p => ('\x0c' :: p.1, p.2))
        else if e == 'n' then
          (parseStringBodyF fuel rest1).map (fun p => ('\n' :: p.1, p.2))
        else if e == 'r' then
          (parseStringBodyF fuel rest1).map (fun p => ('\x0d' :: p.1, p.2))
        else if e == 't' then
          (parseStringBodyF fuel rest1).map (fun p => ('\t' :: p.1, p.2))
        else if e == 'u' then
          match parseUnicodeEscapePair rest1 with
          | some (chs, rest2) =>
            (parseStringBodyF fuel rest2).map (fun p => (chs ++ p.1, p.2))
          | none => none
        else none
    else if c.toNat < 0x20 then none
    else (parseStringBodyF fuel rest).map (fun p => (c :: p.1, p.2))

def parseStringBody (l : List Char) : Option (List Char × List Char) :=
  parseStringBodyF l.length l

def takeDigits : List Char → List Char × List Char
  | [] => ([], [])
  | c :: rest =>
    if isDigit c then ((c :: (takeDigits rest).1), (takeDigits rest).2)
    else ([], c :: rest)

def parseIntPart : List Char → Option (List Char × List Char)
  | [] => none
  | c :: rest =>
    if c == '0' then some (['0'], rest)
    else if isDigit c then some (c :: (takeDigits rest).1, (takeDigits rest).2)
    else none

def parseFracPart : List Char → Option (List Char × List Char)
  | '.' :: rest =>
    match rest with
    | c :: _ =>
      if isDigit c then some ('.' :: (takeDigits rest).1, (takeDigits rest).2)
      else none
    | [] => none
  | l => some ([], l)

def parseExpPart : List Char → Option (List Char × List Char)
  | [] => some ([], [])
  | e :: rest =>
    if e == 'e' || e == 'E' then
      match rest with
      | [] => none
      | s :: rest2 =>
        if s == '+' || s == '-' then
          match rest2 with
          | c :: _ =>
            if isDigit c then some (e :: s :: (takeDigits rest2).1, (takeDigits rest2).2)
            else none
          | [] => none
        else if isDigit s then some (e :: (takeDigits rest).1, (takeDigits rest).2)
        else none
    else some ([], e :: rest)

def parseNumberBody (l : List Char) : Option (List Char × List Char) :=
  match parseIntPart l with
  | none => none
  | some (i, r1) =>
    match parseFracPart r1 with
    | none => none
    | some (f, r2) =>
      match parseExpPart r2 with
      | none => none
      | some (x, r3) => some (i ++ f ++ x, r3)

def parseNumber : List Char → Option (List Char × List Char)
  | '-' :: rest => (parseNumberBody rest).map (fun p => ('-' :: p.1, p.2))
  | l => parseNumberBody l

mutual

def parseValue : Nat → List Char → Option (JVal × List Char)
  | 0, _ => none
  | fuel + 1, l =>
    match skipWs l with
    | [] => none
    | c :: rest =>
      if c == '"' then
        (parseStringBody rest).map (fun p => (JVal.str (String.mk p.1), p.2))
      else if c == '\x7b' then
        match skipWs rest with
        | '\x7d' :: rest1 => some (JVal.obj [], rest1)
        | l1 => (parseMembers fuel l1).map (fun p => (JVal.obj p.1, p.2))
      else if c == '[' then
        match skipWs rest with
        | ']' :: rest1 => some (JVal.arr [], rest1)
        | l1 => (parseElems fuel l1).map (fun p => (JVal.arr p.1, p.2))
      else if c == 't' then
        match rest with
        | 'r' :: 'u' :: 'e' :: rest1 => some (JVal.bool true, rest1)
        | _ => none
      else if c == 'f' then
        match rest with
        | 'a' :: 'l' :: 's' :: 'e' :: rest1 => some (JVal.bool false, rest1)
        | _ => none
      else if c == 'n' then
        match rest with
        | 'u' :: 'l' :: 'l' :: rest1 => some (JVal.null, rest1)
        | _ => none
      else
        (parseNumber (c :: rest)).map (fun p => (JVal.num (String.mk p.1), p.2))

def parseMembers : Nat → List Char → Option (List (String × JVal) × List Char)
  | 0, _ => none
  | fuel + 1, l =>
    match l with
    | '"' :: rest =>
      match parseStringBody rest with
      | none => none
      | some (k, r1) =>
        match skipWs r1 with
        | ':' :: r2 =>
          match parseValue fuel r2 with
          | none => none
          | some (v, r3) =>
            match skipWs r3 with
            | ',' :: r4 =>
              (parseMembers fuel (skipWs r4)).map
                (fun p => ((String.mk k, v) :: p.1, p.2))
            | '\x7d' :: r4 => some ([(String.mk k, v)], r4)
            | _ => none
        | _ => none
    | _ => none

def parseElems : Nat → List Char → Option (List JVal × List Char)
  | 0, _ => none
  | fuel + 1, l =>
    match parseValue fuel l with
    | none => none
    | some (v, r1) =>
      match skipWs r1 with
      | ',' :: r2 => (parseElems fuel (skipWs r2)).map (fun p => (v :: p.1, p.2))
      | ']' :: r2 => some ([v], r2)
      | _ => none

end

def jsonParse (s : String) : Option JVal :=
  match parseValue (s.length + 1) s.toList with
  | some (v, rest) => if (skipWs rest).isEmpty then some v else none
  | none => none

/-- Property read `obj[k]`: `JSON.parse` keeps the last duplicate key; a
missing property (`undefined`) and a primitive receiver are collapsed to
`null`, which is equally falsy (the source only reads properties behind its
`!obj` guard or inside truthiness tests). -/
def objGet (v : JVal) (k : String) : JVal :=
  match v with
  | .obj fs =>
    match fs.reverse.find? (fun p => p.1 == k) with
    | some p => p.2
    | none => .null
  | _ => .null

/-- A JSON number literal denotes zero iff every mantissa digit is `0`. -/
def numIsZero (raw : String) : Bool :=
  (raw.toList.takeWhile (fun c => !(c == 'e' || c == 'E'))).all
    (fun c => !isDigit c || c == '0')

def jsTruthy : JVal → Bool
  | .null => false
  | .bool b => b
  | .num raw => !numIsZero raw
  | .str s => !(s == "")
  | .arr _ => true
  | .obj _ => true

def hexDigit (n : Nat) : Char := "0123456789abcdef".toList.getD n '0'

/-- `JSON.stringify` escaping for one character. -/
def escChar (c : Char) : List Char :=
  if c = '"' then ['\\', '"']
  else if c = '\\' then ['\\', '\\']
  else if c = '\x08' then ['\\', 'b']
  else if c = '\t' then ['\\', 't']
  else if c = '\n' then ['\\', 'n']
  else if c = '\x0c' then ['\\', 'f']
  else if c = '\x0d' then ['\\', 'r']
  else if c.toNat < 0x20 then
    ['\\', 'u', '0', '0', hexDigit (c.toNat / 16), hexDigit (c.toNat % 16)]
  else [c]

def escBody : List Char → List Char
  | [] => []
  | c :: rest => escChar c ++ escBody rest

def jsonQuote (s : List Char) : List Char := '"' :: escBody s ++ ['"']

/-- `JSON.stringify({ id, createdAt })` for string fields (insertion order,
no spaces). -/
def stringifyCursor (id createdAt : List Char) : List Char :=
  "\x7b\"id\":".toList ++ jsonQuote id ++ ",\"createdAt\":".toList ++
    jsonQuote createdAt ++ "\x7d".toList

/-! ### `new Date(x).toISOString()`

Modeled for the ISO-8601 subset `YYYY-MM-DD[THH:MM[:SS[.m[m[m]]]]][Z]` with
a four-digit year and `Z` or no offset (the service clock is UTC).  Other
inputs `new Date` accepts (numeric epochs, RFC-2822 dates, explicit
`±HH:MM` offsets, expanded years) are outside the modeled subset and
treated as invalid; in `parseCursorParam` an invalid date (a caught throw)
and those inputs both stay inside non-null branches, so nothing proved
below about the `null` outcome depends on this cut. -/

structure DateRec where
  y : Nat
  mo : Nat
  d : Nat
  h : Nat
  mi : Nat
  s : Nat
  ms : Nat
deriving DecidableEq, Repr

def isLeap (y : Nat) : Bool := y % 4 == 0 && (y % 100 != 0 || y % 400 == 0)

def daysInMonth (y mo : Nat) : Nat :=
  if mo = 2 then (if isLeap y then 29 else 28)
  else if mo = 4 ∨ mo = 6 ∨ mo = 9 ∨ mo = 11 then 30
  else 31

def digVal (c : Char) : Nat := c.toNat - 48

def msOfDigits : List Char → Nat
  | [a] => digVal a * 100
  | [a, b] => digVal a * 100 + digVal b * 10
  | [a, b, c] => digVal a * 100 + digVal b * 10 + digVal c
  | _ => 0

def parseTime (t : List Char) : Option (Nat × Nat × Nat × Nat) :=
  match t with
  | h1 :: h2 :: ':' :: mi1 :: mi2 :: rest =>
    if isDigit h1 && isDigit h2 && isDigit mi1 && isDigit mi2 then
      if digVal h1 * 10 + digVal h2 ≤ 23 ∧ digVal mi1 * 10 + digVal mi2 ≤ 59 then
        match rest with
        | [] => some (digVal h1 * 10 + digVal h2, digVal mi1 * 10 + digVal mi2, 0, 0)
        | ['Z'] => some (digVal h1 * 10 + digVal h2, digVal mi1 * 10 + digVal mi2, 0, 0)
        | ':' :: s1 :: s2 :: rest2 =>
          if isDigit s1 && isDigit s2 then
            if digVal s1 * 10 + digVal s2 ≤ 59 then
              match rest2 with
              | [] => some (digVal h1 * 10 + digVal h2, digVal mi1 * 10 + digVal mi2,
                  digVal s1 * 10 + digVal s2, 0)
              | ['Z'] => some (digVal h1 * 10 + digVal h2, digVal mi1 * 10 + digVal mi2,
                  digVal s1 * 10 + digVal s2, 0)
              | '.' :: rest3 =>
                if (takeDigits rest3).1 ≠ [] ∧ (takeDigits rest3).1.length ≤ 3 ∧
                    ((takeDigits rest3).2 = [] ∨ (takeDigits rest3).2 = ['Z']) then
                  some (digVal h1 * 10 + digVal h2, digVal mi1 * 10 + digVal mi2,
                    digVal s1 * 10 + digVal s2, msOfDigits (takeDigits rest3).1)
                else none
              | _ => none
            else none
          else none
        | _ => none
      else none
    else none
  | _ => none

def parseJsDateList (l : List Char) : Option DateRec :=
  match l with
  | y1 :: y2 :: y3 :: y4 :: '-' :: m1 :: m2 :: '-' :: d1 :: d2 :: rest =>
    if isDigit y1 && isDigit y2 && isDigit y3 && isDigit y4 &&
        isDigit m1 && isDigit m2 && isDigit d1 && isDigit d2 then
      if 1 ≤ digVal m1 * 10 + digVal m2 ∧ digVal m1 * 10 + digVal m2 ≤ 12 ∧
          1 ≤ digVal d1 * 10 + digVal d2 ∧
          digVal d1 * 10 + digVal d2 ≤
            daysInMonth (digVal y1 * 1000 + digVal y2 * 100 + digVal y3 * 10 + digVal y4)
              (digVal m1 * 10 + digVal m2) then
        match rest with
        | [] => some ⟨digVal y1 * 1000 + digVal y2 * 100 + digVal y3 * 10 + digVal y4,
            digVal m1 * 10 + digVal m2, digVal d1 * 10 + digVal d2, 0, 0, 0, 0⟩
        | 'T' :: t =>
          (parseTime t).map (fun q =>
            ⟨digVal y1 * 1000 + digVal y2 * 100 + digVal y3 * 10 + digVal y4,
              digVal m1 * 10 + digVal m2, digVal d1 * 10 + digVal d2,
              q.1, q.2.1, q.2.2.1, q.2.2.2⟩)
        | _ => none
      else none
    else none
  | _ => none

def parseJsDate (s : String) : Option DateRec := parseJsDateList s.toList

def digitChar (n : Nat) : Char := Char.ofNat (48 + n % 10)

def pad2 (n : Nat) : List Char := [digitChar (n / 10), digitChar n]

def pad3 (n : Nat) : List Char := [digitChar (n / 100), digitChar (n / 10), digitChar n]

def pad4 (n : Nat) : List Char :=
  [digitChar (n / 1000), digitChar (n / 100), digitChar (n / 10), digitChar n]

/-- `Date.prototype.toISOString` for years 1–9999. -/
def toISO (r : DateRec) : List Char :=
  pad4 r.y ++ '-' :: pad2 r.mo ++ '-' :: pad2 r.d ++ 'T' :: pad2 r.h ++
    ':' :: pad2 r.mi ++ ':' :: pad2 r.s ++ '.' :: pad3 r.ms ++ ['Z']

/-- `s` is already in the exact format `toISOString` produces. -/
def isCanonicalIso (s : String) : Bool :=
  match parseJsDate s with
  | some r => toISO r == s.toList
  | none => false

/-- `new Date(v).toISOString()` for a JSON value, `none` when it throws. -/
def jsDateISO : JVal → Option String
  | .str s => (parseJsDate s).map (fun r => String.mk (toISO r))
  | _ => none

/-! ### `parseCursorParam` / `makeCursorToken` (part_012 lines 27–52) -/

structure Cursor where
  id : JVal
  createdAt : Option String

/-- `parseCursorParam(cursorParam)`.  The JS `try`/`catch` spans both
`JSON.parse` and `new Date(obj.createdAt).toISOString()`; a throw from
either falls through to the raw-id return `{ id: cursorParam }`.  The
helper is total: it never itself raises. -/
def parseCursorParam (cursorParam : String) : Option Cursor :=
  if cursorParam = "" then none
  else
    match base64urlDecode cursorParam with
    | some decoded =>
      if decoded = "" then some ⟨.str cursorParam, none⟩
      else
        match jsonParse decoded with
        | some obj =>
          if jsTruthy (objGet obj "id") then
            if jsTruthy (objGet obj "createdAt") then
              match jsDateISO (objGet obj "createdAt") with
              | some iso => some ⟨objGet obj "id", some iso⟩
              | none => some ⟨.str cursorParam, none⟩
            else some ⟨objGet obj "id", none⟩
          else none
        | none => some ⟨.str cursorParam, none⟩
    | none => some ⟨.str cursorParam, none⟩

/-- `makeCursorToken({ id, createdAt })`; `none` models the throw on falsy
input.  At its call site `createdAt` is a `Date`, which `JSON.stringify`
serialises through `toJSON` as the canonical `toISOString()` string, so it
is taken here as that string. -/
def makeCursorToken (id createdAt : String) : Option String :=
  if id = "" || createdAt = "" then none
  else some (base64urlEncode (String.mk (stringifyCursor id.toList createdAt.toList)))

theorem hexVal_hexDigit : ∀ n, n < 16 → hexVal (hexDigit n) = some n := by decide

/-- The stringify-side escaping is inverted by the parse-side unescaping. -/
theorem parseStringBodyF_escBody : ∀ (cs : List Char) (fuel : Nat) (rest : List Char),
    (escBody cs ++ '"' :: rest).length ≤ fuel →
    parseStringBodyF fuel (escBody cs ++ '"' :: rest) = some (cs, rest)
  | [], 0, rest, hlen => by simp [escBody] at hlen
  | [], fuel + 1, rest, hlen => by simp [escBody, parseStringBodyF]
  | c :: cs, 0, rest, hlen => by simp [escBody, escChar] at hlen
  | c :: cs, fuel + 1, rest, hlen => by
    rw [show escBody (c :: cs) = escChar c ++ escBody cs from rfl, List.append_assoc]
    have hlen' : (escBody cs ++ '"' :: rest).length + (escChar c).length ≤ fuel + 1 := by
      rw [show escBody (c :: cs) = escChar c ++ escBody cs from rfl] at hlen
      simp only [List.length_append] at hlen ⊢
      omega
    have hcl : 1 ≤ (escChar c).length := by
      unfold escChar
      split_ifs <;> simp
    have ih := parseStringBodyF_escBody cs fuel rest (by omega)
    by_cases h1 : c = '"'
    · subst h1
      rw [show escChar '"' = ['\\', '"'] from rfl]
      simp [parseStringBodyF, ih]
    · by_cases h2 : c = '\\'
      · subst h2
        rw [show escChar '\\' = ['\\', '\\'] from rfl]
        simp [parseStringBodyF, ih]
      · by_cases h3 : c = '\x08'
        · subst h3
          rw [show escChar '\x08' = ['\\', 'b'] from rfl]
          simp [parseStringBodyF, ih]
        · by_cases h4 : c = '\t'
          · subst h4
            rw [show escChar '\t' = ['\\', 't'] from rfl]
            simp [parseStringBodyF, ih]
          · by_cases h5 : c = '\n'
            · subst h5
              rw [show escChar '\n' = ['\\', 'n'] from rfl]
              simp [parseStringBodyF, ih]
            · by_cases h6 : c = '\x0c'
              · subst h6
                rw [show escChar '\x0c' = ['\\', 'f'] from rfl]
                simp [parseStringBodyF, ih]
              · by_cases h7 : c = '\x0d'
                · subst h7
                  rw [show escChar '\x0d' = ['\\', 'r'] from rfl]
                  simp [parseStringBodyF, ih]
                · by_cases h8 : c.toNat < 0x20
                  · rw [show escChar c = ['\\', 'u', '0', '0',
                      hexDigit (c.toNat / 16), hexDigit (c.toNat % 16)] by
                        unfold escChar
                        rw [if_neg h1, if_neg h2, if_neg h3, if_neg h4, if_neg h5,
                          if_neg h6, if_neg h7, if_pos h8]]
                    have h0 : hexVal '0' = some 0 := rfl
                    have hhi : hexVal (hexDigit (c.toNat / 16)) = some (c.toNat / 16) :=
                      hexVal_hexDigit _ (by omega)
                    have hlo : hexVal (hexDigit (c.toNat % 16)) = some (c.toNat % 16) :=
                      hexVal_hexDigit _ (by omega)
                    have huni : parseUnicodeEscapePair ('0' :: '0' ::
                        hexDigit (c.toNat / 16) :: hexDigit (c.toNat % 16) ::
                        (escBody cs ++ '"' :: rest)) =
                        some ([c], escBody cs ++ '"' :: rest) := by
                      unfold parseUnicodeEscapePair
                      simp only [h0, hhi, hlo]
                      rw [if_neg (by omega), if_neg (by omega)]
                      rw [show 0 * 4096 + 0 * 256 + c.toNat / 16 * 16 + c.toNat % 16 =
                        c.toNat by omega]
                      rw [Char.ofNat_toNat]
                    simp [parseStringBodyF, huni, ih]
                  · rw [show escChar c = [c] by
                      unfold escChar
                      rw [if_neg h1, if_neg h2, if_neg h3, if_neg h4, if_neg h5,
                        if_neg h6, if_neg h7, if_neg h8]]
                    simp [parseStringBodyF, h1, h2, h8, ih]

theorem parseStringBody_escBody (cs rest : List Char) :
    parseStringBody (escBody cs ++ '"' :: rest) = some (cs, rest) :=
  parseStringBodyF_escBody cs (escBody cs ++ '"' :: rest).length rest (le_refl _)

/-- Parsing the serialised cursor object recovers the two fields. -/
theorem parseValue_stringifyCursor (fuel : Nat) (id ca : List Char) :
    parseValue (fuel + 4) (stringifyCursor id ca) =
      some (.obj [("id", .str (String.mk id)), ("createdAt", .str (String.mk ca))],
        []) := by
  rw [show stringifyCursor id ca =
    '\x7b' :: '"' :: 'i' :: 'd' :: '"' :: ':' :: '"' ::
      (escBody id ++ '"' :: ',' :: '"' :: 'c' :: 'r' :: 'e' :: 'a' :: 't' :: 'e' ::
        'd' :: 'A' :: 't' :: '"' :: ':' :: '"' ::
        (escBody ca ++ '"' :: '\x7d' :: [])) by
      simp [stringifyCursor, jsonQuote, List.append_assoc]]
  have hkey1 : parseStringBody ('i' :: 'd' :: '"' :: ':' :: '"' ::
      (escBody id ++ '"' :: ',' :: '"' :: 'c' :: 'r' :: 'e' :: 'a' :: 't' :: 'e' ::
        'd' :: 'A' :: 't' :: '"' :: ':' :: '"' :: (escBody ca ++ ['"', '\x7d']))) =
      some (['i', 'd'], ':' :: '"' ::
      (escBody id ++ '"' :: ',' :: '"' :: 'c' :: 'r' :: 'e' :: 'a' :: 't' :: 'e' ::
        'd' :: 'A' :: 't' :: '"' :: ':' :: '"' :: (escBody ca ++ ['"', '\x7d']))) :=
    parseStringBody_escBody ['i', 'd'] _
  have hkey2 : parseStringBody ('c' :: 'r' :: 'e' :: 'a' :: 't' :: 'e' ::
      'd' :: 'A' :: 't' :: '"' :: ':' :: '"' :: (escBody ca ++ ['"', '\x7d'])) =
      some (['c', 'r', 'e', 'a', 't', 'e', 'd', 'A', 't'],
        ':' :: '"' :: (escBody ca ++ ['"', '\x7d'])) :=
    parseStringBody_escBody ['c', 'r', 'e', 'a', 't', 'e', 'd', 'A', 't'] _
  simp [parseValue, parseMembers, skipWs, isJsonWs, hkey1, hkey2,
    parseStringBody_escBody]

theorem jsonParse_stringifyCursor (id ca : List Char) :
    jsonParse (String.mk (stringifyCursor id ca)) =
      some (.obj [("id", .str (String.mk id)), ("createdAt", .str (String.mk ca))]) := by
  unfold jsonParse
  have hge : 3 ≤ (stringifyCursor id ca).length := by
    simp [stringifyCursor, jsonQuote, List.length_append]
  obtain ⟨m, hm⟩ : ∃ m, (stringifyCursor id ca).length + 1 = m + 4 :=
    ⟨(stringifyCursor id ca).length - 3, by omega⟩
  rw [show (String.mk (stringifyCursor id ca)).toList = stringifyCursor id ca from rfl]
  rw [show (String.mk (stringifyCursor id ca)).length = (stringifyCursor id ca).length
    from rfl]
  rw [hm, parseValue_stringifyCursor]
  simp [skipWs]

theorem base64urlEncode_length (s : String) :
    (base64urlEncode s).length = ((utf8Encode s.toList).length * 4 + 2) / 3 := by
  unfold base64urlEncode
  show (stripTrailingEq
    ((b64EncodeBytes (utf8Encode s.toList)).map swapPlusSlashToUrl)).length = _
  rw [stripTrailingEq_map_swap, List.length_map, stripEnc_len]

theorem utf8EncodeChar_length_pos (c : Char) : 1 ≤ (utf8EncodeChar c).length := by
  unfold utf8EncodeChar
  split_ifs <;> simp

theorem length_le_utf8Encode_length : ∀ l : List Char, l.length ≤ (utf8Encode l).length
  | [] => le_refl _
  | c :: t => by
    show (c :: t).length ≤ (utf8EncodeChar c ++ utf8Encode t).length
    rw [List.length_append, List.length_cons]
    have h1 := utf8EncodeChar_length_pos c
    have h2 := length_le_utf8Encode_length t
    omega

/-- C7 (amended): for a non-empty id and a createdAt string already in the
canonical `toISOString` format, the cursor token round-trips exactly. -/
theorem cursorToken_roundTrip (id createdAt : String) (hid : id ≠ "")
    (hca : isCanonicalIso createdAt = true) :
    ∃ token, makeCursorToken id createdAt = some token ∧
      parseCursorParam token = some ⟨.str id, some createdAt⟩ := by
  have hcane : createdAt ≠ "" := by
    intro h
    rw [h] at hca
    exact absurd hca (by decide)
  have hjlen : 3 ≤ (stringifyCursor id.toList createdAt.toList).length := by
    simp [stringifyCursor, jsonQuote, List.length_append]
  have htok : makeCursorToken id createdAt =
      some (base64urlEncode (String.mk (stringifyCursor id.toList createdAt.toList))) := by
    unfold makeCursorToken
    simp [hid, hcane]
  refine ⟨_, htok, ?_⟩
  have hn : 3 ≤ (utf8Encode
      (String.mk (stringifyCursor id.toList createdAt.toList)).toList).length := by
    have h := length_le_utf8Encode_length (stringifyCursor id.toList createdAt.toList)
    rw [show (String.mk (stringifyCursor id.toList createdAt.toList)).toList =
      stringifyCursor id.toList createdAt.toList from rfl]
    omega
  have htne : base64urlEncode
      (String.mk (stringifyCursor id.toList createdAt.toList)) ≠ "" := by
    intro h
    have hl := congrArg String.length h
    rw [base64urlEncode_length] at hl
    rw [show ("" : String).length = 0 from rfl] at hl
    omega
  obtain ⟨r, hpd, hiso⟩ : ∃ r, parseJsDate createdAt = some r ∧
      toISO r = createdAt.toList := by
    unfold isCanonicalIso at hca
    cases hpd : parseJsDate createdAt with
    | none => rw [hpd] at hca; cases hca
    | some r =>
      rw [hpd] at hca
      exact ⟨r, rfl, by simpa using hca⟩
  have hdate : jsDateISO (.str createdAt) = some createdAt := by
    show (parseJsDate createdAt).map (fun r => String.mk (toISO r)) = some createdAt
    rw [hpd]
    show some (String.mk (toISO r)) = some createdAt
    rw [hiso]
    rfl
  have hjne : String.mk (stringifyCursor id.toList createdAt.toList) ≠ "" := by
    intro h
    have hl := congrArg String.length h
    rw [show (String.mk (stringifyCursor id.toList createdAt.toList)).length =
      (stringifyCursor id.toList createdAt.toList).length from rfl,
      show ("" : String).length = 0 from rfl] at hl
    omega
  have hmkid : String.mk id.toList = id := rfl
  have hmkca : String.mk createdAt.toList = createdAt := rfl
  unfold parseCursorParam
  rw [if_neg htne, base64urlDecode_encode]
  simp [hjne, jsonParse_stringifyCursor, objGet, jsTruthy, hmkid, hmkca, hid,
    hcane, hdate]
  exact hjne

/-- C8 (amended): `parseCursorParam` is a total function (the throw sites
inside its `try` are caught), and it returns `null` *only* for the empty
token or for a token that base64url-decodes to non-empty text that
`JSON.parse` accepts but whose `id` property is falsy.  Every other
malformed token is not rejected: the fallback returns the synthesized
raw-id cursor `{ id: token }`. -/
theorem parseCursorParam_none_iff (t : String) :
    parseCursorParam t = none ↔
      t = "" ∨ ∃ s obj, base64urlDecode t = some s ∧ s ≠ "" ∧
        jsonParse s = some obj ∧ jsTruthy (objGet obj "id") = false := by
  unfold parseCursorParam
  by_cases h0 : t = ""
  · simp [h0]
  · rw [if_neg h0]
    split
    next dec hdec =>
      by_cases hde : dec = ""
      · rw [if_pos hde]
        constructor
        · intro h
          simp at h
        · rintro (h | ⟨s, obj, hs, hsne, hjs, hfalse⟩)
          · exact absurd h h0
          · rw [hdec] at hs
            obtain rfl : dec = s := Option.some.inj hs
            exact absurd hde hsne
      · rw [if_neg hde]
        split
        next obj hj =>
          have hrhs : ∀ (hid : jsTruthy (objGet obj "id") = true),
              ¬(t = "" ∨ ∃ s obj', base64urlDecode t = some s ∧ s ≠ "" ∧
                jsonParse s = some obj' ∧ jsTruthy (objGet obj' "id") = false) := by
            intro hid hr
            rcases hr with h | ⟨s, obj', hs, hsne, hjs, hfalse⟩
            · exact absurd h h0
            · rw [hdec] at hs
              obtain rfl : dec = s := Option.some.inj hs
              rw [hj] at hjs
              obtain rfl : obj = obj' := Option.some.inj hjs
              rw [hid] at hfalse
              cases hfalse
          by_cases hid : jsTruthy (objGet obj "id") = true
          · rw [if_pos hid]
            by_cases hca : jsTruthy (objGet obj "createdAt") = true
            · rw [if_pos hca]
              split
              next iso hdate =>
                exact ⟨fun h => by simp at h, fun h => absurd h (hrhs hid)⟩
              next hdate =>
                exact ⟨fun h => by simp at h, fun h => absurd h (hrhs hid)⟩
            · rw [if_neg hca]
              exact ⟨fun h => by simp at h, fun h => absurd h (hrhs hid)⟩
          · rw [if_neg hid]
            exact ⟨fun _ => Or.inr ⟨dec, obj, hdec, hde, hj, by simpa using hid⟩,
              fun _ => rfl⟩
        next hj =>
          constructor
          · intro h
            simp at h
          · rintro (h | ⟨s, obj, hs, hsne, hjs, hfalse⟩)
            · exact absurd h h0
            · rw [hdec] at hs
              obtain rfl : dec = s := Option.some.inj hs
              rw [hj] at hjs
              cases hjs
    next hdec =>
      constructor
      · intro h
        simp at h
      · rintro (h | ⟨s, obj, hs, hsne, hjs, hfalse⟩)
        · exact absurd h h0
        · rw [hdec] at hs
          cases hs

/-- C8 (counterexample): the token `aGVsbG8` is not a base64url encoding of
a JSON object — it decodes to the five bytes of `hello`, which `JSON.parse`
rejects — yet `parseCursorParam` does not return `null`: it synthesizes the
raw-id cursor `{ id: 'aGVsbG8' }`. -/
theorem parseCursorParam_malformed_synthesizes :
    parseCursorParam "aGVsbG8" = some ⟨JVal.str "aGVsbG8", none⟩ ∧
    base64urlDecode "aGVsbG8" = some "hello" ∧
    jsonParse "hello" = none :=
  ⟨rfl, rfl, rfl⟩

/-- C7 (counterexample): `{ id: 'm1', createdAt: '2020-01-01T00:00:00Z' }`
is a valid cursor whose createdAt is ISO-8601, but the round trip returns
createdAt `2020-01-01T00:00:00.000Z` — `new Date(x).toISOString()` inside
`parseCursorParam` re-serialises the timestamp — so decode ∘ encode is not
the identity on it. -/
theorem cursorToken_roundTrip_counterexample :
    makeCursorToken "m1" "2020-01-01T00:00:00Z" =
      some "eyJpZCI6Im0xIiwiY3JlYXRlZEF0IjoiMjAyMC0wMS0wMVQwMDowMDowMFoifQ" ∧
    (parseCursorParam
        "eyJpZCI6Im0xIiwiY3JlYXRlZEF0IjoiMjAyMC0wMS0wMVQwMDowMDowMFoifQ").map
      Cursor.createdAt = some (some "2020-01-01T00:00:00.000Z") ∧
    ("2020-01-01T00:00:00.000Z" : String) ≠ "2020-01-01T00:00:00Z" :=
  ⟨rfl, rfl, by decide⟩

theorem cursorToken_roundTrip_witness :
    ("m1" : String) ≠ "" ∧ isCanonicalIso "2020-01-01T00:00:00.000Z" = true ∧
    ∃ token, makeCursorToken "m1" "2020-01-01T00:00:00.000Z" = some token ∧
      parseCursorParam token = some ⟨.str "m1", some "2020-01-01T00:00:00.000Z"⟩ :=
  ⟨by decide, by decide,
    cursorToken_roundTrip "m1" "2020-01-01T00:00:00.000Z" (by decide) (by decide)⟩

end VaultRelay
